import Mathlib

/-!
Verification development for the GaoAgent repository.

Shallow embedding of:
* the streaming finish-answer decoder (`_FinishAnswerStreamParser` in
  `AgentFramework/AttractionAgent.py`),
* the answer normalisation pipeline (`normalize_answer` / `format_answer_for_ui`),
* the agent control loop (`_run_agent`, `run_agent`),
* the job lifecycle supervisor (`backend/tasks.py`, `backend/streaming.py`,
  `backend/db.py`).

Python strings are embedded as `String` / `List Char`; Python `None`-able
strings as `Option String`; fallible operations return `Except`.
-/

namespace GaoAgent

/-- Characters removed by Python's `str.strip()` for the ASCII range: the repo
only ever strips ASCII whitespace, so only those characters are modelled. -/
def pyIsSpace (c : Char) : Bool :=
  c = ' ' || c = '\t' || c = '\n' || c = '\r' || c = '\x0b' || c = '\x0c'

/-- Python `str.strip()` on a character list. -/
def pyStripL (cs : List Char) : List Char :=
  ((cs.dropWhile pyIsSpace).reverse.dropWhile pyIsSpace).reverse

/-- Python `str.strip()`. -/
def pyStrip (s : String) : String :=
  ⟨pyStripL s.toList⟩

/-! ## Streaming answer decoder

`_FinishAnswerStreamParser` from `AgentFramework/AttractionAgent.py`
(lines 345-380) together with `_decode_escape_char` (lines 333-342). -/

/-- `_decode_escape_char`: the fixed escape table applied to the character
following a backslash inside the answer payload. -/
def decode_escape_char (ch : Char) : Char :=
  if ch = 'n' then '\n'
  else if ch = 't' then '\t'
  else if ch = '"' then '"'
  else if ch = '\\' then '\\'
  else ch

/-- The literal prefix `self._prefix = 'finish(answer="'` the parser matches. -/
def finishPfx : List Char := "finish(answer=\"".toList

/-- `self._prefix[i]` (the invariants below keep `i` in bounds; the default is
never read on reachable states). -/
def pfxGet (i : Nat) : Char := finishPfx.getD i ' '

/-- The mutable fields of `_FinishAnswerStreamParser`. -/
structure FinishAnswerStreamParser where
  prefix_index : Nat
  in_answer : Bool
  escape : Bool
  done : Bool
  deriving DecidableEq, Repr

/-- `_FinishAnswerStreamParser.__init__`: fresh decode session. -/
def parserInit : FinishAnswerStreamParser :=
  { prefix_index := 0, in_answer := false, escape := false, done := false }

/-- One character of `_FinishAnswerStreamParser.feed`'s `for` loop; the second
component is what gets passed to the emit sink for this character. -/
def feedChar (s : FinishAnswerStreamParser) (ch : Char) :
    FinishAnswerStreamParser × List Char :=
  if s.done then (s, [])
  else if s.in_answer = false then
    if ch = pfxGet s.prefix_index then
      if s.prefix_index + 1 = finishPfx.length then
        ({ s with in_answer := true, prefix_index := 0 }, [])
      else
        ({ s with prefix_index := s.prefix_index + 1 }, [])
    else
      ({ s with prefix_index := if ch = pfxGet 0 then 1 else 0 }, [])
  else if s.escape then
    ({ s with escape := false }, [decode_escape_char ch])
  else if ch = '\\' then
    ({ s with escape := true }, [])
  else if ch = '"' then
    ({ s with done := true, in_answer := false }, [])
  else
    (s, [ch])

/-- `_FinishAnswerStreamParser.feed` on one chunk: the source's early returns
(`if self._done or not chunk: return` and the in-loop `if self._done: return`)
coincide with folding `feedChar`, because `feedChar` on a `done` state is the
identity and emits nothing. -/
def feed (s : FinishAnswerStreamParser) : List Char → FinishAnswerStreamParser × List Char
  | [] => (s, [])
  | c :: cs =>
    let r := feedChar s c
    let r' := feed r.1 cs
    (r'.1, r.2 ++ r'.2)

/-- Feeding a sequence of stream fragments to one decode session, collecting
everything emitted to the sink, in order. -/
def feedFrags (s : FinishAnswerStreamParser) : List (List Char) → FinishAnswerStreamParser × List Char
  | [] => (s, [])
  | f :: fs =>
    let r := feed s f
    let r' := feedFrags r.1 fs
    (r'.1, r.2 ++ r'.2)

theorem feedChar_done {s : FinishAnswerStreamParser} (h : s.done = true) (c : Char) :
    feedChar s c = (s, []) := by
  simp [feedChar, h]

theorem feed_done {s : FinishAnswerStreamParser} (h : s.done = true) (cs : List Char) :
    feed s cs = (s, []) := by
  induction cs with
  | nil => rfl
  | cons c cs ih => simp [feed, feedChar_done h, ih]

theorem feed_append (s : FinishAnswerStreamParser) (xs ys : List Char) :
    feed s (xs ++ ys) =
      ((feed (feed s xs).1 ys).1, (feed s xs).2 ++ (feed (feed s xs).1 ys).2) := by
  induction xs generalizing s with
  | nil => simp [feed]
  | cons c cs ih => simp [feed, ih, List.append_assoc]

/-- Fragment boundaries are irrelevant: feeding the fragments one by one equals
feeding their concatenation. -/
theorem feedFrags_eq_join (s : FinishAnswerStreamParser) (fs : List (List Char)) :
    feedFrags s fs = feed s fs.flatten := by
  induction fs generalizing s with
  | nil => simp [feedFrags, feed]
  | cons f fs ih => simp [feedFrags, List.flatten, feed_append, ih]

theorem feed_snoc (s : FinishAnswerStreamParser) (xs : List Char) (c : Char) :
    feed s (xs ++ [c]) =
      ((feedChar (feed s xs).1 c).1, (feed s xs).2 ++ (feedChar (feed s xs).1 c).2) := by
  rw [feed_append]
  simp [feed]

theorem finishPfx_length : finishPfx.length = 15 := by decide

/-- The prefix literal contains the character f only at position 0; this is
what makes the single-character restart rule of `feed` a complete matcher. -/
theorem pfx_no_f : ∀ m, m < 15 → 1 ≤ m → pfxGet m ≠ 'f' := by decide

theorem pfx_take_succ {k : Nat} (hk : k < 15) :
    finishPfx.take (k + 1) = finishPfx.take k ++ [pfxGet k] := by
  have hk' : k < finishPfx.length := by rw [finishPfx_length]; exact hk
  rw [List.take_succ, List.getElem?_eq_getElem hk']
  simp [pfxGet, List.getD_eq_getElem?_getD, List.getElem?_eq_getElem hk']

theorem suffix_snoc_match {k : Nat} {xs : List Char} {c : Char} (hk : k < 15)
    (h : finishPfx.take k <:+ xs) (hc : c = pfxGet k) :
    finishPfx.take (k + 1) <:+ xs ++ [c] := by
  rcases h with ⟨t, ht⟩
  refine ⟨t, ?_⟩
  rw [pfx_take_succ hk, hc, ← List.append_assoc, ht]

theorem suffix_snoc_inv {m : Nat} {xs : List Char} {c : Char} (hm : m < 15)
    (h : finishPfx.take (m + 1) <:+ xs ++ [c]) :
    finishPfx.take m <:+ xs ∧ c = pfxGet m := by
  rcases h with ⟨t, ht⟩
  rw [pfx_take_succ hm, ← List.append_assoc] at ht
  have h2 := List.append_inj' ht (by simp)
  refine ⟨⟨t, h2.1⟩, ?_⟩
  simpa using h2.2.symm

/-- A nonempty proper prefix of the prefix literal is never one of its own
borders: its first character is f and f occurs nowhere else in the literal. -/
theorem pfx_no_border {m k : Nat} (h1 : 1 ≤ m) (hmk : m < k) (hk : k ≤ 15)
    (h : finishPfx.take m <:+ finishPfx.take k) : False := by
  rcases h with ⟨t, ht⟩
  have hm15 : m ≤ 15 := le_of_lt (lt_of_lt_of_le hmk hk)
  have hlenm : (finishPfx.take m).length = m := by
    rw [List.length_take, finishPfx_length]; omega
  have hlenk : (finishPfx.take k).length = k := by
    rw [List.length_take, finishPfx_length]; omega
  have hlt : t.length = k - m := by
    have := congrArg List.length ht
    simp [hlenm, hlenk] at this
    omega
  have e1 : (t ++ finishPfx.take m)[t.length]? = (finishPfx.take m)[0]? := by
    rw [List.getElem?_append_right (le_refl t.length)]
    simp
  have e2 : (finishPfx.take m)[0]? = some 'f' := by
    have h0 : 0 < m := h1
    rw [List.getElem?_take_of_lt h0]
    decide
  have e3 : (finishPfx.take k)[t.length]? = finishPfx[k - m]? := by
    rw [hlt, List.getElem?_take_of_lt (by omega)]
  have e4 : finishPfx[k - m]? = some 'f' := by
    rw [← e3, ← ht, e1, e2]
  have h5 : pfxGet (k - m) = 'f' := by
    rw [pfxGet, List.getD_eq_getElem?_getD, e4]
    rfl
  exact pfx_no_f (k - m) (by omega) (by omega) h5

theorem infix_snoc_iff {l xs : List Char} {c : Char} :
    l <:+: xs ++ [c] ↔ l <:+: xs ∨ l <:+ xs ++ [c] := by
  constructor
  · rintro ⟨a, b, hab⟩
    rcases List.eq_nil_or_concat b with rfl | ⟨b', c', rfl⟩
    · right
      exact ⟨a, by simpa using hab⟩
    · left
      simp only [List.concat_eq_append, ← List.append_assoc] at hab
      have h2 := List.append_inj' hab (by simp)
      exact ⟨a, b', h2.1⟩
  · rintro (⟨a, b, hab⟩ | ⟨t, ht⟩)
    · refine ⟨a, b ++ [c], ?_⟩
      rw [← hab]
      simp [List.append_assoc]
    · exact ⟨t, [], by simpa using ht⟩

/-- Once inside the answer, a decode step stays inside the answer or reaches
the terminal state. -/
theorem feedChar_in_answer {s : FinishAnswerStreamParser} (h : s.in_answer = true)
    (hd : s.done = false) (c : Char) :
    (feedChar s c).1.in_answer = true ∨ (feedChar s c).1.done = true := by
  by_cases he : s.escape = true
  · left
    simp [feedChar, hd, h, he]
  · by_cases hb : c = '\\'
    · left
      simp [feedChar, hd, h, he, hb]
    · by_cases hq : c = '"'
      · right
        simp [feedChar, hd, h, he, hb, hq]
      · left
        simp [feedChar, hd, h, he, hb, hq]

/-- The longest-match bookkeeping the seeking state maintains. -/
def SeekInv (xs : List Char) (s : FinishAnswerStreamParser) : Prop :=
  s.prefix_index < 15 ∧ finishPfx.take s.prefix_index <:+ xs ∧
    ∀ m, m < 15 → finishPfx.take m <:+ xs → m ≤ s.prefix_index

/-- Core invariant of one decode session over the concatenated input `xs`:
while the parser is still seeking, nothing has been emitted, the matched
prefix length is the longest suffix of `xs` that is a prefix of the literal,
and the literal has not occurred; once `in_answer` or `done` holds, the
literal has occurred in `xs`. -/
theorem run_invariant (xs : List Char) :
    ((feed parserInit xs).1.in_answer = false ∧ (feed parserInit xs).1.done = false →
      (feed parserInit xs).2 = [] ∧ SeekInv xs (feed parserInit xs).1
        ∧ ¬ finishPfx <:+: xs)
    ∧ ((feed parserInit xs).1.in_answer = true ∨ (feed parserInit xs).1.done = true →
      finishPfx <:+: xs) := by
  induction xs using List.reverseRecOn with
  | nil =>
    constructor
    · intro _
      refine ⟨rfl, ⟨by decide, by decide, ?_⟩, by decide⟩
      intro m hm15 hm
      have h1 := hm.length_le
      rw [List.length_take, finishPfx_length] at h1
      simp only [List.length_nil, Nat.le_zero] at h1
      show m ≤ (0 : Nat)
      omega
    · intro h
      rcases h with h | h <;> simp [feed, parserInit] at h
  | append_singleton l c ih =>
    rw [feed_snoc]
    by_cases hdn : (feed parserInit l).1.done = true
    · have hstep : feedChar (feed parserInit l).1 c = ((feed parserInit l).1, []) :=
        feedChar_done hdn c
      rw [hstep]
      constructor
      · intro hcon
        rw [hdn] at hcon
        exact absurd hcon.2 (by simp)
      · intro _
        exact infix_snoc_iff.mpr (Or.inl (ih.2 (Or.inr hdn)))
    · by_cases hia : (feed parserInit l).1.in_answer = true
      · have hinf : finishPfx <:+: l := ih.2 (Or.inl hia)
        have hinf' : finishPfx <:+: l ++ [c] := infix_snoc_iff.mpr (Or.inl hinf)
        have hd : (feed parserInit l).1.done = false := by
          simpa using hdn
        constructor
        · intro hcon
          -- after in_answer, the successor state is in_answer or done
          exfalso
          rcases feedChar_in_answer hia hd c with h | h
          · rw [hcon.1] at h
            exact Bool.false_ne_true h
          · rw [hcon.2] at h
            exact Bool.false_ne_true h
        · intro _
          exact hinf'
      · -- seeking state
        have hia' : (feed parserInit l).1.in_answer = false := by simpa using hia
        have hdn' : (feed parserInit l).1.done = false := by simpa using hdn
        obtain ⟨hout, ⟨hk15, hsuf, hmax⟩, hninf⟩ := ih.1 ⟨hia', hdn'⟩
        set st := (feed parserInit l).1 with hst
        set k := st.prefix_index with hkdef
        by_cases hc : c = pfxGet k
        · by_cases hfull : k + 1 = finishPfx.length
          · -- completed the prefix: transition to in_answer
            have hk14 : k = 14 := by
              rw [finishPfx_length] at hfull
              omega
            have hocc : finishPfx <:+ l ++ [c] := by
              have h15 : finishPfx.take 15 = finishPfx := by decide
              have := suffix_snoc_match hk15 hsuf hc
              rw [hk14] at this
              simpa [h15] using this
            have hstep : feedChar st c =
                ({ st with in_answer := true, prefix_index := 0 }, []) := by
              simp [feedChar, hdn', hia', hc, hfull]
            rw [hstep]
            constructor
            · intro hcon
              exact absurd hcon.1 (by simp)
            · intro _
              exact hocc.isInfix
          · -- extended the partial match
            have hstep : feedChar st c = ({ st with prefix_index := k + 1 }, []) := by
              simp [feedChar, hdn', hia', hc, hfull]
            rw [hstep]
            have hk14 : k + 1 < 15 := by
              rw [finishPfx_length] at hfull
              omega
            constructor
            · intro _
              refine ⟨by simpa using hout, ⟨hk14, suffix_snoc_match hk15 hsuf hc, ?_⟩, ?_⟩
              · intro m hm15 hm
                show m ≤ k + 1
                cases m with
                | zero => omega
                | succ m' =>
                  obtain ⟨hm', hcm⟩ := suffix_snoc_inv (by omega) hm
                  have := hmax m' (by omega) hm'
                  omega
              · intro hinfc
                rcases infix_snoc_iff.mp hinfc with h | h
                · exact hninf h
                · have h15 : finishPfx = finishPfx.take 15 := by decide
                  rw [h15] at h
                  obtain ⟨h14, hc14⟩ := suffix_snoc_inv (by omega) h
                  have := hmax 14 (by omega) h14
                  omega
            · intro hcon
              rcases hcon with h | h
              · exact absurd h (by simp [hia'])
              · exact absurd h (by simp [hdn'])
        · -- mismatch: restart with 1 on f, else 0
          have hstep : feedChar st c =
              ({ st with prefix_index := if c = pfxGet 0 then 1 else 0 }, []) := by
            simp [feedChar, hdn', hia', hc]
          rw [hstep]
          have hnotend : ¬ finishPfx <:+ l ++ [c] := by
            intro h
            have h15 : finishPfx = finishPfx.take 15 := by decide
            rw [h15] at h
            obtain ⟨h14, hc14⟩ := suffix_snoc_inv (by omega) h
            have h14k : 14 ≤ k := hmax 14 (by omega) h14
            have : k = 14 := by omega
            exact hc (by rw [this, ← hc14])
          constructor
          · intro _
            refine ⟨by simpa using hout, ⟨?_, ?_, ?_⟩, ?_⟩
            · show (if c = pfxGet 0 then 1 else 0) < 15
              by_cases hf : c = pfxGet 0 <;> simp [hf]
            · show finishPfx.take (if c = pfxGet 0 then 1 else 0) <:+ l ++ [c]
              by_cases hf : c = pfxGet 0
              · rw [if_pos hf]
                refine ⟨l, ?_⟩
                have h1 : finishPfx.take 1 = ['f'] := by decide
                have h2 : pfxGet 0 = 'f' := by decide
                rw [h1, hf, h2]
              · rw [if_neg hf]
                exact ⟨l ++ [c], by simp⟩
            · intro m hm15 hm
              show m ≤ if c = pfxGet 0 then 1 else 0
              cases m with
              | zero => simp
              | succ m' =>
                obtain ⟨hm', hcm⟩ := suffix_snoc_inv (by omega) hm
                -- c = pfxGet m'; if m' = 0 then c = f, else impossible
                cases Nat.eq_zero_or_pos m' with
                | inl h0 =>
                  subst h0
                  have hcf : c = pfxGet 0 := hcm
                  simp [hcf]
                | inr hpos =>
                  exfalso
                  have hm'k : m' ≤ k := hmax m' (by omega) hm'
                  cases Nat.lt_or_ge m' k with
                  | inl hlt =>
                    -- take m' is a border of take k: impossible
                    have hsufk : finishPfx.take m' <:+ finishPfx.take k := by
                      refine List.suffix_of_suffix_length_le hm' hsuf ?_
                      rw [List.length_take, List.length_take, finishPfx_length]
                      omega
                    exact pfx_no_border hpos hlt (by omega) hsufk
                  | inr hge =>
                    have hmk : m' = k := by omega
                    exact hc (by rw [hmk] at hcm; exact hcm)
            · intro hinfc
              rcases infix_snoc_iff.mp hinfc with h | h
              · exact hninf h
              · exact hnotend h
          · intro hcon
            rcases hcon with h | h
            · exact absurd h (by simp [hia'])
            · exact absurd h (by simp [hdn'])

/-- **C1**: for every fragmentation of an input stream whose concatenation is
the text `finish(answer="A\nB\"C")`, feeding the fragments in order to a
fresh streaming answer decoder emits exactly the characters A, newline, B,
double quote, C, in that order and nothing else; after the closing unescaped
quote the state is `done` and every further feed call emits nothing. -/
theorem finish_stream_decode_c1 (fs : List (List Char))
    (h : fs.flatten = "finish(answer=\"A\\nB\\\"C\")".toList) :
    (feedFrags parserInit fs).2 = "A\nB\"C".toList
    ∧ (feedFrags parserInit fs).1.done = true
    ∧ ∀ extra : List Char, (feed (feedFrags parserInit fs).1 extra).2 = [] := by
  have e : feedFrags parserInit fs = feed parserInit "finish(answer=\"A\\nB\\\"C\")".toList := by
    rw [feedFrags_eq_join, h]
  rw [e]
  refine ⟨by decide, by decide, ?_⟩
  intro extra
  rw [feed_done (by decide)]

/-- Witness for C1: a concrete three-fragment split of the target text. -/
theorem finish_stream_decode_c1_witness :
    ((["finish(an".toList, "swer=\"A\\nB".toList, "\\\"C\")".toList] : List (List Char)).flatten
        = "finish(answer=\"A\\nB\\\"C\")".toList)
    ∧ (feedFrags parserInit
        ["finish(an".toList, "swer=\"A\\nB".toList, "\\\"C\")".toList]).2 = "A\nB\"C".toList :=
  ⟨by decide, (finish_stream_decode_c1 _ (by decide)).1⟩

/-- **C10**: if the concatenated input never contains the literal
`finish(answer="`, the decoder emits nothing; and the decoder leaves the
prefix-seeking state (`in_answer` or `done`) exactly when that literal occurs
as a substring of the concatenated input — the single-character restart rule
is a complete matcher for this prefix. -/
theorem finish_stream_prefix_exact_c10 (fs : List (List Char)) :
    (¬ finishPfx <:+: fs.flatten → (feedFrags parserInit fs).2 = [])
    ∧ ((feedFrags parserInit fs).1.in_answer = true ∨ (feedFrags parserInit fs).1.done = true
        ↔ finishPfx <:+: fs.flatten) := by
  rw [feedFrags_eq_join]
  have h := run_invariant fs.flatten
  constructor
  · intro hni
    by_cases hia : (feed parserInit fs.flatten).1.in_answer = true
    · exact absurd (h.2 (Or.inl hia)) hni
    · by_cases hdn : (feed parserInit fs.flatten).1.done = true
      · exact absurd (h.2 (Or.inr hdn)) hni
      · exact (h.1 ⟨by simpa using hia, by simpa using hdn⟩).1
  · constructor
    · exact h.2
    · intro hin
      by_cases hia : (feed parserInit fs.flatten).1.in_answer = true
      · exact Or.inl hia
      · by_cases hdn : (feed parserInit fs.flatten).1.done = true
        · exact Or.inr hdn
        · exact absurd hin (h.1 ⟨by simpa using hia, by simpa using hdn⟩).2.2

/-- Witness for C10: a stream of fragments that repeatedly almost matches the
prefix emits nothing. -/
theorem finish_stream_prefix_exact_c10_witness :
    (¬ finishPfx <:+: (["finish(ans".toList, "wer=fini".toList] : List (List Char)).flatten)
    ∧ (feedFrags parserInit ["finish(ans".toList, "wer=fini".toList]).2 = [] :=
  ⟨by decide, (finish_stream_prefix_exact_c10 _).1 (by decide)⟩

/-! ## Job lifecycle supervisor

`backend/db.py` (SqliteJobStore over the `video_jobs` table), `backend/tasks.py`
(JobManager) and `backend/streaming.py` (update extraction). -/

/-- A value stored in one column of a SQLite job row (`NULL`, `TEXT`, or
`INTEGER` are the types this codebase writes). -/
inductive JVal where
  | s (v : String)
  | i (n : Int)
  | null
  deriving DecidableEq, Repr

/-- Python truthiness of `job.get(column)` as used on fetched row values. -/
def jvTruthy : Option JVal → Bool
  | some (.s v) => v ≠ ""
  | some (.i n) => n ≠ 0
  | some .null => false
  | none => false

/-- A JSON value as parsed from one upstream NDJSON line. Numeric payloads are
modelled as integers: the only numeric field the extractor reads is `progress`,
which the source immediately truncates with `int(...)`. -/
inductive Json where
  | null
  | str (s : String)
  | num (n : Int)
  | bool (b : Bool)
  | arr (xs : List Json)
  | obj (kvs : List (String × Json))

/-- The columns of the `video_jobs` table (`VIDEO_TABLE_SQL` in `backend/db.py`). -/
def videoColumns : List String :=
  ["request_id", "created_at", "prompt", "mode", "aspect_ratio", "duration",
   "size", "remix_target_id", "pid", "result_url", "status", "progress",
   "failure_reason", "error"]

/-- Columns declared NOT NULL in `VIDEO_TABLE_SQL` (besides the primary key). -/
def videoNotNull : List String :=
  ["created_at", "prompt", "mode", "aspect_ratio", "duration", "size"]

/-- A fetched row: every table column paired with its value, in schema order
(`dict(row)` in `SqliteJobStore.fetch`). -/
abbrev Row := List (String × JVal)

/-- The store contents: rows keyed by `request_id`. -/
abbrev Store := List (String × Row)

/-- Python dict assignment `m[k] = v`: replace in place when the key exists,
otherwise append. -/
def dictInsert {β : Type} (m : List (String × β)) (k : String) (v : β) :
    List (String × β) :=
  if (m.map Prod.fst).contains k then
    m.map (fun kv => if kv.1 = k then (k, v) else kv)
  else m ++ [(k, v)]

/-- The row a `SELECT *` returns after an `INSERT` that supplied `fields`:
omitted columns hold NULL. -/
def mkRow (fields : List (String × JVal)) : Row :=
  videoColumns.map (fun c => (c, (fields.lookup c).getD JVal.null))

/-- `SqliteJobStore.insert` on the video table. The `Except.error` cases model
the sqlite exceptions the source logs and re-raises: an unknown or duplicated
column name, a NOT NULL violation (a NOT NULL column omitted or set to NULL),
and a duplicate primary key. The supervisor only ever inserts a string
`request_id`; other key types are not modelled. -/
def storeInsert (store : Store) (fields : List (String × JVal)) : Except String Store :=
  if fields.isEmpty then .ok store
  else if ¬ (fields.map Prod.fst).all videoColumns.contains then .error "no such column"
  else if ¬ (fields.map Prod.fst).Nodup then .error "duplicate column name"
  else if ¬ videoNotNull.all (fun c =>
      match fields.lookup c with
      | some v => v ≠ JVal.null
      | none => false) then .error "NOT NULL constraint failed"
  else
    match fields.lookup "request_id" with
    | some (.s id) =>
      if (store.map Prod.fst).contains id then .error "UNIQUE constraint failed"
      else .ok (store ++ [(id, mkRow fields)])
    | _ => .error "unsupported request_id"

/-- `SqliteJobStore.update` applied to one row: each supplied column is
overwritten, the others kept. -/
def rowUpdate (row : Row) (fields : List (String × JVal)) : Row :=
  row.map (fun cv =>
    match fields.lookup cv.1 with
    | some v => (cv.1, v)
    | none => cv)

/-- `SqliteJobStore.update`: `UPDATE ... WHERE request_id = ?`. Updating an
absent id affects no rows and raises nothing. Every update the supervisor
issues uses schema columns, so the unknown-column sqlite error has no
reachable counterpart and is not modelled. -/
def storeUpdate (store : Store) (key : String) (fields : List (String × JVal)) : Store :=
  store.map (fun kr => if kr.1 = key then (kr.1, rowUpdate kr.2 fields) else kr)

/-- `SqliteJobStore.fetch`: pure read. -/
def fetchStore (store : Store) (key : String) : Option Row :=
  store.lookup key

/-- `JobManager.create_job`: the dict literal
`{"request_id": id, "created_at": now, "status": "submitted", "progress": 0,
**params}` (later keys override earlier ones), inserted into the store.
`now` stands for `datetime.utcnow().isoformat()`. -/
def create_job (store : Store) (request_id : String) (now : String)
    (params : List (String × JVal)) : Except String Store :=
  storeInsert store (params.foldl (fun m kv => dictInsert m kv.1 kv.2)
    [("request_id", .s request_id), ("created_at", .s now),
     ("status", .s "submitted"), ("progress", .i 0)])

/-- `JobManager.update_job`. -/
def update_job (store : Store) (request_id : String)
    (fields : List (String × JVal)) : Store :=
  if fields.isEmpty then store else storeUpdate store request_id fields

/-- `JobManager.complete_job_if_needed`: the trailing finalization. -/
def complete_job_if_needed (store : Store) (request_id : String) : Store :=
  match fetchStore store request_id with
  | none => store
  | some job =>
    if jvTruthy (job.lookup "result_url")
        && job.lookup "status" ≠ some (.s "succeeded")
        && job.lookup "status" ≠ some (.s "failed") then
      update_job store request_id [("status", .s "succeeded")]
    else store

/-- `extract_video_updates` (`backend/streaming.py`, lines 37-61). -/
def extract_video_updates (payload : List (String × Json)) : List (String × JVal) :=
  (match payload.lookup "status" with
   | some (.str s) => [("status", JVal.s s)]
   | _ => []) ++
  (match payload.lookup "progress" with
   | some (.num n) => [("progress", JVal.i n)]
   | _ => []) ++
  (match payload.lookup "failure_reason" with
   | some (.str s) => if s ≠ "" then [("failure_reason", JVal.s s)] else []
   | _ => []) ++
  (match payload.lookup "error" with
   | some (.str s) => if s ≠ "" then [("error", JVal.s s)] else []
   | _ => []) ++
  (match payload.lookup "results" with
   | some (.arr (x :: _)) =>
     match x with
     | .obj first =>
       (match first.lookup "url" with
        | some (.str u) => if u ≠ "" then [("result_url", JVal.s u)] else []
        | _ => []) ++
       (match first.lookup "pid" with
        | some (.str p) => if p ≠ "" then [("pid", JVal.s p)] else []
        | _ => [])
     | _ => []
   | _ => [])

/-- Modelled from the spec: the update extraction `tasks.py` performs as
`extract_updates(payload, self._result_fields)`. That function is missing
from the source tree (`backend/streaming.py` defines only
`extract_video_updates` and `extract_image_updates`). Per spec §4.4 the
supervisor extracts status, progress, failureReason, error, and the first
result object's designated fields; for the video manager
(`result_fields = ["result_url", "pid"]`) that is `extract_video_updates`,
which the parallel in-source implementation `_run_video_job` in
`backend/main.py` calls directly. -/
def extract_updates_video (payload : List (String × Json)) : List (String × JVal) :=
  extract_video_updates payload

/-- `JobManager._handle_payload` for the video manager. -/
def handle_payload (store : Store) (request_id : String)
    (payload : List (String × Json)) : Store :=
  let updates := extract_updates_video payload
  if updates.isEmpty then store else update_job store request_id updates

/-- The upstream interaction of one `run_job` call: an HTTP error status with
its body, or the parsed JSON-object lines delivered before the stream ended
or a transport exception interrupted it (`stream_ndjson_lines` drops lines
that are not JSON objects before they reach `_handle_payload`). -/
inductive Upstream where
  | httpError (body : String)
  | stream (lines : List (List (String × Json))) (exc : Option String)

/-- `JobManager.run_job` for the video manager: set `running`; on an upstream
HTTP error persist `failed` with the error body and stop; otherwise apply
each streamed payload in order, then either persist `failed` with the
exception message or run the trailing `complete_job_if_needed`. -/
def run_job (store : Store) (request_id : String) (up : Upstream) : Store :=
  let s1 := update_job store request_id [("status", .s "running")]
  match up with
  | .httpError body =>
    update_job s1 request_id [("status", .s "failed"), ("error", .s body)]
  | .stream lines exc =>
    let s2 := lines.foldl (fun st p => handle_payload st request_id p) s1
    match exc with
    | some msg => update_job s2 request_id [("status", .s "failed"), ("error", .s msg)]
    | none => complete_job_if_needed s2 request_id

/-! ### Association-list lemmas for the store model -/

theorem lookup_mem_keys {β : Type} (m : List (String × β)) (k : String)
    (h : k ∈ m.map Prod.fst) : ∃ v, m.lookup k = some v := by
  rcases List.mem_map.mp h with ⟨p, hp, hk⟩
  have hs : (m.lookup k).isSome := List.lookup_isSome_iff.mpr ⟨p, hp, by simp [hk]⟩
  exact ⟨(m.lookup k).get hs, (Option.some_get hs).symm⟩

theorem mem_keys_of_lookup {β : Type} {m : List (String × β)} {k : String} {v : β}
    (h : m.lookup k = some v) : k ∈ m.map Prod.fst := by
  by_contra hmem
  have : m.lookup k = none := by
    rw [List.lookup_eq_none_iff]
    intro p hp
    simp only [bne_iff_ne, ne_eq]
    intro hk
    exact hmem (List.mem_map.mpr ⟨p, hp, hk.symm⟩)
  rw [this] at h
  exact Option.noConfusion h

theorem not_mem_keys_lookup {β : Type} {m : List (String × β)} {k : String}
    (h : k ∉ m.map Prod.fst) : m.lookup k = none := by
  rw [List.lookup_eq_none_iff]
  intro p hp
  simp only [bne_iff_ne, ne_eq]
  intro hk
  exact h (List.mem_map.mpr ⟨p, hp, hk.symm⟩)

theorem rowUpdate_lookup (row : Row) (fields : List (String × JVal)) (c : String) :
    (rowUpdate row fields).lookup c
      = (row.lookup c).map (fun v => (fields.lookup c).getD v) := by
  induction row with
  | nil => rfl
  | cons kv rest ih =>
    obtain ⟨k, v⟩ := kv
    by_cases h : c = k
    · subst h
      cases hf : fields.lookup c <;>
        simp [rowUpdate, List.lookup_cons, hf]
    · have hbe : (c == k) = false := by simp [h]
      have ih' := ih
      unfold rowUpdate at ih'
      cases hf : fields.lookup k <;>
        simp [rowUpdate, List.lookup_cons, hf, hbe, ih']

theorem fetchStore_update (store : Store) (key : String)
    (fields : List (String × JVal)) :
    fetchStore (storeUpdate store key fields) key
      = (fetchStore store key).map (fun r => rowUpdate r fields) := by
  induction store with
  | nil => rfl
  | cons kr rest ih =>
    obtain ⟨k, r⟩ := kr
    by_cases h : k = key
    · subst h
      simp [fetchStore, storeUpdate, List.lookup_cons]
    · simp only [fetchStore, storeUpdate, List.map_cons, if_neg h] at *
      rw [List.lookup_cons, List.lookup_cons]
      have hne : (key == k) = false := by
        simp [Ne.symm h]
      simp [hne, ih]

theorem lookup_map_replace {β : Type} (m : List (String × β)) (k : String) (v : β)
    (h : k ∈ m.map Prod.fst) :
    (m.map (fun kv => if kv.1 = k then (k, v) else kv)).lookup k = some v := by
  induction m with
  | nil => simp at h
  | cons kv rest ih =>
    obtain ⟨k₀, v₀⟩ := kv
    by_cases hk : k₀ = k
    · subst hk
      simp [List.lookup_cons]
    · have h' : k ∈ rest.map Prod.fst := by
        rcases List.mem_map.mp h with ⟨p, hp, hpk⟩
        rcases List.mem_cons.mp hp with rfl | hp'
        · exact absurd hpk hk
        · exact List.mem_map.mpr ⟨p, hp', hpk⟩
      have hk' : ¬ k = k₀ := fun e => hk e.symm
      have hbe : (k == k₀) = false := by simp [hk']
      simp [List.lookup_cons, hk, hbe, ih h']

theorem lookup_map_replace_ne {β : Type} (m : List (String × β)) (k : String) (v : β)
    (k' : String) (h : k' ≠ k) :
    (m.map (fun kv => if kv.1 = k then (k, v) else kv)).lookup k' = m.lookup k' := by
  induction m with
  | nil => rfl
  | cons kv rest ih =>
    obtain ⟨k₀, v₀⟩ := kv
    by_cases hk : k₀ = k
    · subst hk
      have hbe : (k' == k₀) = false := by simp [h]
      simp [List.lookup_cons, hbe, ih]
    · simp only [List.map_cons, if_neg hk]
      rw [List.lookup_cons, List.lookup_cons, ih]

theorem keys_map_replace {β : Type} (m : List (String × β)) (k : String) (v : β) :
    (m.map (fun kv => if kv.1 = k then (k, v) else kv)).map Prod.fst
      = m.map Prod.fst := by
  induction m with
  | nil => rfl
  | cons kv rest ih =>
    obtain ⟨k₀, v₀⟩ := kv
    by_cases hk : k₀ = k <;> simp [hk, ih]

theorem dictInsert_lookup_self {β : Type} (m : List (String × β)) (k : String) (v : β) :
    (dictInsert m k v).lookup k = some v := by
  unfold dictInsert
  by_cases h : k ∈ m.map Prod.fst
  · rw [if_pos (by simpa using h)]
    exact lookup_map_replace m k v h
  · rw [if_neg (by simpa using h)]
    rw [List.lookup_append, not_mem_keys_lookup h]
    simp

theorem dictInsert_lookup_ne {β : Type} (m : List (String × β)) (k : String) (v : β)
    (k' : String) (h : k' ≠ k) :
    (dictInsert m k v).lookup k' = m.lookup k' := by
  unfold dictInsert
  by_cases hc : k ∈ m.map Prod.fst
  · rw [if_pos (by simpa using hc)]
    exact lookup_map_replace_ne m k v k' h
  · rw [if_neg (by simpa using hc)]
    rw [List.lookup_append]
    have hbe : (k' == k) = false := by simp [h]
    have : ([(k, v)] : List (String × β)).lookup k' = none := by
      simp [List.lookup_cons, hbe]
    rw [this]
    simp

theorem dictInsert_keys {β : Type} (m : List (String × β)) (k : String) (v : β)
    (k' : String) (h : k' ∈ (dictInsert m k v).map Prod.fst) :
    k' ∈ m.map Prod.fst ∨ k' = k := by
  unfold dictInsert at h
  by_cases hc : k ∈ m.map Prod.fst
  · rw [if_pos (by simpa using hc), keys_map_replace] at h
    exact Or.inl h
  · rw [if_neg (by simpa using hc)] at h
    simp only [List.map_append, List.mem_append] at h
    rcases h with h | h
    · exact Or.inl h
    · simp at h
      exact Or.inr h

theorem dictInsert_keys_nodup {β : Type} (m : List (String × β)) (k : String) (v : β)
    (h : (m.map Prod.fst).Nodup) : ((dictInsert m k v).map Prod.fst).Nodup := by
  unfold dictInsert
  by_cases hc : k ∈ m.map Prod.fst
  · rw [if_pos (by simpa using hc), keys_map_replace]
    exact h
  · rw [if_neg (by simpa using hc)]
    simp only [List.map_append, List.map_cons, List.map_nil]
    rw [List.nodup_append]
    exact ⟨h, List.nodup_singleton _, by simpa using hc⟩

theorem dictInsert_length_le {β : Type} (m : List (String × β)) (k : String) (v : β) :
    m.length ≤ (dictInsert m k v).length := by
  unfold dictInsert
  by_cases hc : k ∈ m.map Prod.fst
  · rw [if_pos (by simpa using hc)]
    simp
  · rw [if_neg (by simpa using hc)]
    simp

/-- The dict-building fold used by `create_job` for `{**base, **params}`. -/
def dictFold {β : Type} (ps : List (String × β)) (m : List (String × β)) :
    List (String × β) :=
  ps.foldl (fun m kv => dictInsert m kv.1 kv.2) m

theorem dictFold_lookup_not_mem {β : Type} (ps : List (String × β))
    (m : List (String × β)) (k : String) (h : k ∉ ps.map Prod.fst) :
    (dictFold ps m).lookup k = m.lookup k := by
  induction ps generalizing m with
  | nil => rfl
  | cons kv rest ih =>
    obtain ⟨k₀, v₀⟩ := kv
    have hk : k ≠ k₀ := by
      intro hkk
      exact h (by simp [hkk])
    have hr : k ∉ rest.map Prod.fst := by
      intro hmem
      exact h (by simp [hmem])
    show (dictFold rest (dictInsert m k₀ v₀)).lookup k = m.lookup k
    rw [ih _ hr, dictInsert_lookup_ne _ _ _ _ hk]

theorem dictFold_lookup_mem {β : Type} (ps : List (String × β))
    (m : List (String × β)) (k : String) (hnd : (ps.map Prod.fst).Nodup)
    (h : k ∈ ps.map Prod.fst) :
    (dictFold ps m).lookup k = ps.lookup k := by
  induction ps generalizing m with
  | nil => simp at h
  | cons kv rest ih =>
    obtain ⟨k₀, v₀⟩ := kv
    by_cases hk : k = k₀
    · subst hk
      have hnr : k ∉ rest.map Prod.fst := by
        simp only [List.map_cons, List.nodup_cons] at hnd
        exact hnd.1
      show (dictFold rest (dictInsert m k v₀)).lookup k = _
      rw [dictFold_lookup_not_mem _ _ _ hnr, dictInsert_lookup_self]
      simp [List.lookup_cons]
    · have h' : k ∈ rest.map Prod.fst := by
        rcases List.mem_map.mp h with ⟨p, hp, hpk⟩
        rcases List.mem_cons.mp hp with rfl | hp'
        · exact absurd hpk.symm hk
        · exact List.mem_map.mpr ⟨p, hp', hpk⟩
      show (dictFold rest (dictInsert m k₀ v₀)).lookup k = _
      simp only [List.map_cons, List.nodup_cons] at hnd
      rw [ih _ hnd.2 h']
      have hbe : (k == k₀) = false := by simp [hk]
      simp [List.lookup_cons, hbe]

theorem dictFold_keys {β : Type} (ps : List (String × β)) (m : List (String × β))
    (k : String) (h : k ∈ (dictFold ps m).map Prod.fst) :
    k ∈ m.map Prod.fst ∨ k ∈ ps.map Prod.fst := by
  induction ps generalizing m with
  | nil => exact Or.inl h
  | cons kv rest ih =>
    obtain ⟨k₀, v₀⟩ := kv
    rcases ih (dictInsert m k₀ v₀) h with h' | h'
    · rcases dictInsert_keys _ _ _ _ h' with h'' | h''
      · exact Or.inl h''
      · exact Or.inr (by simp [h''])
    · exact Or.inr (by simp [h'])

theorem dictFold_keys_nodup {β : Type} (ps : List (String × β))
    (m : List (String × β)) (h : (m.map Prod.fst).Nodup) :
    ((dictFold ps m).map Prod.fst).Nodup := by
  induction ps generalizing m with
  | nil => exact h
  | cons kv rest ih => exact ih _ (dictInsert_keys_nodup _ _ _ h)

theorem dictFold_length_le {β : Type} (ps : List (String × β))
    (m : List (String × β)) : m.length ≤ (dictFold ps m).length := by
  induction ps generalizing m with
  | nil => exact le_refl _
  | cons kv rest ih =>
    exact le_trans (dictInsert_length_le m kv.1 kv.2) (ih _)

theorem mkRow_lookup_aux {β : Type} (cols : List String) (g : String → β)
    (c : String) (h : c ∈ cols) :
    (cols.map (fun c => (c, g c))).lookup c = some (g c) := by
  induction cols with
  | nil => simp at h
  | cons c₀ rest ih =>
    by_cases hc : c = c₀
    · subst hc
      simp [List.lookup_cons]
    · rcases List.mem_cons.mp h with rfl | h'
      · exact absurd rfl hc
      · have hbe : (c == c₀) = false := by simp [hc]
        simp [List.lookup_cons, hbe, ih h']

theorem mkRow_lookup (fields : List (String × JVal)) (c : String)
    (h : c ∈ videoColumns) :
    (mkRow fields).lookup c = some ((fields.lookup c).getD JVal.null) := by
  unfold mkRow
  exact mkRow_lookup_aux videoColumns (fun c => (fields.lookup c).getD JVal.null) c h

theorem mkRow_keys (fields : List (String × JVal)) :
    (mkRow fields).map Prod.fst = videoColumns := by
  unfold mkRow
  rw [List.map_map]
  simp [Function.comp_def]

/-! ### Claims C6, C7, C8 -/

/-- Concrete video-job parameters used by the witnesses below. -/
def jobParams0 : List (String × JVal) :=
  [("prompt", .s "a cat"), ("mode", .s "text"), ("aspect_ratio", .s "16:9"),
   ("duration", .i 5), ("size", .s "720p")]

/-- The store holding one freshly created job built from `jobParams0`. -/
def jobStore0 : Store :=
  match create_job [] "job-1" "t0" jobParams0 with
  | .ok s => s
  | .error _ => []

/-- The store after `run_job` has marked `jobStore0`'s job running and the
first streamed line has set the terminal status `failed`. -/
def c6sTerminal : Store :=
  handle_payload (update_job jobStore0 "job-1" [("status", JVal.s "running")])
    "job-1" [("status", Json.str "failed")]

/-- `c6sTerminal` after the supervisor handles one more streamed line. -/
def c6sAfter : Store :=
  handle_payload c6sTerminal "job-1" [("progress", Json.num 50)]

/-- Counterexample to C6 as stated: after a streamed line puts the job in the
terminal status `failed`, handling the next streamed line still changes the
`progress` field of the record (from 0 to 50) — streamed update handling is
not gated on terminal status, so terminal states are not absorbing. The last
conjunct shows this two-line stream is exactly what `run_job` does. -/
theorem job_terminal_mutation_c6_counterexample :
    ((fetchStore c6sTerminal "job-1").bind (fun r => r.lookup "status")
        = some (JVal.s "failed"))
    ∧ ((fetchStore c6sTerminal "job-1").bind (fun r => r.lookup "progress")
        = some (JVal.i 0))
    ∧ ((fetchStore c6sAfter "job-1").bind (fun r => r.lookup "progress")
        = some (JVal.i 50))
    ∧ run_job jobStore0 "job-1"
        (.stream [[("status", Json.str "failed")], [("progress", Json.num 50)]] none)
      = c6sAfter := by
  refine ⟨by decide, by decide, by decide, by decide⟩

/-- **C6** (amended): only the trailing finalization treats terminal states as
absorbing: `complete_job_if_needed` never changes the store when the job's
persisted status is already `succeeded` or `failed`. Streamed update handling
and exception handling are not gated on terminal status and can still mutate
the record (see the counterexample). -/
theorem job_terminal_finalization_absorbing_c6 (store : Store) (id : String)
    (row : Row) (hf : fetchStore store id = some row)
    (hs : row.lookup "status" = some (JVal.s "succeeded")
        ∨ row.lookup "status" = some (JVal.s "failed")) :
    complete_job_if_needed store id = store := by
  have e : complete_job_if_needed store id
      = if (jvTruthy (row.lookup "result_url")
          && row.lookup "status" ≠ some (JVal.s "succeeded")
          && row.lookup "status" ≠ some (JVal.s "failed")) then
          update_job store id [("status", JVal.s "succeeded")]
        else store := by
    unfold complete_job_if_needed
    rw [hf]
  have hb : (jvTruthy (row.lookup "result_url")
      && row.lookup "status" ≠ some (JVal.s "succeeded")
      && row.lookup "status" ≠ some (JVal.s "failed")) = false := by
    rcases hs with h | h <;> rw [h] <;> simp
  rw [e, if_neg (fun hcon => Bool.false_ne_true (hb ▸ hcon))]

/-- Witness for C6's amended theorem at a concrete terminal job. -/
theorem job_terminal_finalization_absorbing_c6_witness :
    complete_job_if_needed c6sTerminal "job-1" = c6sTerminal :=
  job_terminal_finalization_absorbing_c6 c6sTerminal "job-1"
    ((fetchStore c6sTerminal "job-1").getD []) (by decide) (Or.inr (by decide))

/-- The concrete upstream stream of claim C7: a running/progress line, then a
results line carrying the url, then end of stream without a terminal status. -/
def c7Up : Upstream :=
  .stream [[("status", Json.str "running"), ("progress", Json.num 40)],
           [("results", Json.arr [Json.obj [("url", Json.str "x")]])]] none

theorem complete_job_branch {store : Store} {id : String} {row : Row}
    (hf : fetchStore store id = some row)
    (hc : (jvTruthy (row.lookup "result_url")
        && row.lookup "status" ≠ some (JVal.s "succeeded")
        && row.lookup "status" ≠ some (JVal.s "failed")) = true) :
    complete_job_if_needed store id
      = update_job store id [("status", JVal.s "succeeded")] := by
  have e : complete_job_if_needed store id
      = if (jvTruthy (row.lookup "result_url")
          && row.lookup "status" ≠ some (JVal.s "succeeded")
          && row.lookup "status" ≠ some (JVal.s "failed")) then
          update_job store id [("status", JVal.s "succeeded")]
        else store := by
    unfold complete_job_if_needed
    rw [hf]
  rw [e, if_pos hc]

/-- **C7**: for a job whose upstream stream delivers
`{"status":"running","progress":40}` and then `{"results":[{"url":"x"}]}` and
ends without an explicit terminal status, the final persisted state after
`run_job` has status `succeeded` and result_url `"x"`. -/
theorem job_trailing_success_c7 (store : Store) (id : String) (row : Row)
    (hf : fetchStore store id = some row)
    (hkeys : row.map Prod.fst = videoColumns) :
    ((fetchStore (run_job store id c7Up) id).bind (fun r => r.lookup "status")
        = some (JVal.s "succeeded"))
    ∧ ((fetchStore (run_job store id c7Up) id).bind (fun r => r.lookup "result_url")
        = some (JVal.s "x")) := by
  obtain ⟨v0, hv0⟩ := lookup_mem_keys row "status" (by rw [hkeys]; decide)
  obtain ⟨v1, hv1⟩ := lookup_mem_keys row "result_url" (by rw [hkeys]; decide)
  have e : run_job store id c7Up
      = complete_job_if_needed
          (storeUpdate (storeUpdate (storeUpdate store id
            [("status", JVal.s "running")]) id
            [("status", JVal.s "running"), ("progress", JVal.i 40)]) id
            [("result_url", JVal.s "x")]) id := rfl
  set s3 := storeUpdate (storeUpdate (storeUpdate store id
      [("status", JVal.s "running")]) id
      [("status", JVal.s "running"), ("progress", JVal.i 40)]) id
      [("result_url", JVal.s "x")] with hs3def
  set r3 := rowUpdate (rowUpdate (rowUpdate row
      [("status", JVal.s "running")])
      [("status", JVal.s "running"), ("progress", JVal.i 40)])
      [("result_url", JVal.s "x")] with hr3def
  have hr3 : fetchStore s3 id = some r3 := by
    rw [hs3def, fetchStore_update, fetchStore_update, fetchStore_update, hf, hr3def]
    rfl
  have hst : r3.lookup "status" = some (JVal.s "running") := by
    rw [hr3def, rowUpdate_lookup, rowUpdate_lookup, rowUpdate_lookup, hv0]
    rfl
  have hru : r3.lookup "result_url" = some (JVal.s "x") := by
    rw [hr3def, rowUpdate_lookup, rowUpdate_lookup, rowUpdate_lookup, hv1]
    rfl
  have hcomp : run_job store id c7Up = storeUpdate s3 id [("status", JVal.s "succeeded")] := by
    rw [e, complete_job_branch hr3 (by rw [hst, hru]; decide)]
    rfl
  rw [hcomp]
  constructor
  · rw [fetchStore_update, hr3]
    simp [rowUpdate_lookup, hst, List.lookup_cons]
  · rw [fetchStore_update, hr3]
    simp [rowUpdate_lookup, hru, List.lookup_cons]

/-- Witness for C7 at the concrete fresh job store. -/
theorem job_trailing_success_c7_witness :
    ((fetchStore (run_job jobStore0 "job-1" c7Up) "job-1").bind
        (fun r => r.lookup "status") = some (JVal.s "succeeded"))
    ∧ ((fetchStore (run_job jobStore0 "job-1" c7Up) "job-1").bind
        (fun r => r.lookup "result_url") = some (JVal.s "x")) :=
  job_trailing_success_c7 jobStore0 "job-1" ((fetchStore jobStore0 "job-1").getD [])
    (by decide) (by decide)

/-- The keys `create_job` itself writes before merging the caller's params. -/
def reservedJobKeys : List String :=
  ["request_id", "created_at", "status", "progress"]

/-- The NOT NULL columns the caller must supply (`created_at` is written by
`create_job` itself). -/
def videoRequiredParams : List String :=
  ["prompt", "mode", "aspect_ratio", "duration", "size"]

/-- **C8**: for a job id not yet in the store and a valid parameter mapping —
keys are schema columns distinct from the keys `create_job` itself sets,
without duplicates, and every caller-supplied NOT NULL column receives a
non-NULL value — `create_job` succeeds and an immediate fetch returns a
record with status `submitted`, progress `0`, and every supplied parameter
unchanged. -/
theorem create_fetch_roundtrip_c8 (store : Store) (id now : String)
    (params : List (String × JVal))
    (hid : store.lookup id = none)
    (hkeys : ∀ k ∈ params.map Prod.fst, k ∈ videoColumns ∧ k ∉ reservedJobKeys)
    (hnodup : (params.map Prod.fst).Nodup)
    (hnn : (videoRequiredParams.all (fun c =>
        match params.lookup c with
        | some v => v ≠ JVal.null
        | none => false)) = true) :
    ∃ row,
      create_job store id now params = .ok (store ++ [(id, row)])
      ∧ fetchStore (store ++ [(id, row)]) id = some row
      ∧ row.lookup "status" = some (JVal.s "submitted")
      ∧ row.lookup "progress" = some (JVal.i 0)
      ∧ ∀ k v, params.lookup k = some v → row.lookup k = some v := by
  have hbase : ([("request_id", JVal.s id), ("created_at", JVal.s now),
      ("status", JVal.s "submitted"), ("progress", JVal.i 0)]).map Prod.fst
      = ["request_id", "created_at", "status", "progress"] := rfl
  set base : List (String × JVal) := [("request_id", JVal.s id), ("created_at", JVal.s now),
      ("status", JVal.s "submitted"), ("progress", JVal.i 0)] with hbasedef
  set jd := dictFold params base with hjddef
  -- reserved keys are untouched by params
  have hres : ∀ k, k ∈ reservedJobKeys → k ∉ params.map Prod.fst := by
    intro k hkres hkp
    exact (hkeys k hkp).2 hkres
  have hstat : jd.lookup "status" = some (JVal.s "submitted") := by
    rw [hjddef, dictFold_lookup_not_mem _ _ _ (hres "status" (by decide))]
    rfl
  have hprog : jd.lookup "progress" = some (JVal.i 0) := by
    rw [hjddef, dictFold_lookup_not_mem _ _ _ (hres "progress" (by decide))]
    rfl
  have hcreated : jd.lookup "created_at" = some (JVal.s now) := by
    rw [hjddef, dictFold_lookup_not_mem _ _ _ (hres "created_at" (by decide))]
    rfl
  have hreq : jd.lookup "request_id" = some (JVal.s id) := by
    rw [hjddef, dictFold_lookup_not_mem _ _ _ (hres "request_id" (by decide))]
    rfl
  have hparam : ∀ k v, params.lookup k = some v → jd.lookup k = some v := by
    intro k v hkv
    rw [hjddef, dictFold_lookup_mem _ _ _ hnodup (mem_keys_of_lookup hkv)]
    exact hkv
  -- the insert's validity checks all pass
  have hne : jd.isEmpty = false := by
    have hlen : 4 ≤ jd.length := by
      rw [hjddef]
      exact dictFold_length_le params base
    cases hjd : jd with
    | nil => rw [hjd] at hlen; simp at hlen
    | cons a l => simp
  have hcols : ((jd.map Prod.fst).all videoColumns.contains) = true := by
    rw [List.all_eq_true]
    intro k hk
    have hmem : k ∈ videoColumns := by
      rcases dictFold_keys params base k (hjddef ▸ hk) with h | h
      · rw [hbase] at h
        simp only [List.mem_cons, List.not_mem_nil, or_false] at h
        rcases h with rfl | rfl | rfl | rfl <;> decide
      · exact (hkeys k h).1
    exact List.elem_iff.mpr hmem
  have hnodup' : ((jd.map Prod.fst).Nodup) := by
    rw [hjddef]
    refine dictFold_keys_nodup _ _ ?_
    rw [hbase]
    decide
  have hnnull : (videoNotNull.all (fun c =>
      match jd.lookup c with
      | some v => v ≠ JVal.null
      | none => false)) = true := by
    rw [List.all_eq_true]
    intro c hc
    have hc' : c = "created_at" ∨ c ∈ videoRequiredParams := by
      simp only [videoNotNull, List.mem_cons, List.not_mem_nil, or_false] at hc
      rcases hc with rfl | rfl | rfl | rfl | rfl | rfl
      · exact Or.inl rfl
      all_goals exact Or.inr (by decide)
    rcases hc' with rfl | hcp
    · rw [hcreated]
      simp
    · have := List.all_eq_true.mp hnn c hcp
      rcases hl : params.lookup c with _ | v
      · rw [hl] at this
        simp at this
      · rw [hparam c v hl]
        rw [hl] at this
        exact this
  have hnotin : id ∉ store.map Prod.fst := by
    intro hm
    rcases lookup_mem_keys store id hm with ⟨r, hr⟩
    rw [hr] at hid
    exact Option.noConfusion hid
  have hcontains : ((store.map Prod.fst).contains id) = false := by
    rcases hb : (store.map Prod.fst).contains id with _ | _
    · rfl
    · exact absurd (List.elem_iff.mp hb) hnotin
  refine ⟨mkRow jd, ?_, ?_, ?_, ?_, ?_⟩
  · show storeInsert store jd = _
    unfold storeInsert
    rw [if_neg (fun h => Bool.false_ne_true (hne ▸ h)),
      if_neg (not_not_intro hcols), if_neg (not_not_intro hnodup'),
      if_neg (not_not_intro hnnull)]
    simp only [hreq]
    rw [if_neg (fun h => Bool.false_ne_true (hcontains ▸ h))]
  · rw [fetchStore, List.lookup_append, hid]
    simp [List.lookup_cons]
  · rw [mkRow_lookup _ _ (by decide), hstat]
    rfl
  · rw [mkRow_lookup _ _ (by decide), hprog]
    rfl
  · intro k v hkv
    have hkc : k ∈ videoColumns :=
      (hkeys k (mem_keys_of_lookup hkv)).1
    rw [mkRow_lookup _ _ hkc, hparam k v hkv]
    rfl

/-- Witness for C8 at concrete parameters. -/
theorem create_fetch_roundtrip_c8_witness :
    ∃ row,
      create_job [] "job-1" "t0" jobParams0 = .ok ([] ++ [("job-1", row)])
      ∧ fetchStore ([] ++ [("job-1", row)]) "job-1" = some row
      ∧ row.lookup "status" = some (JVal.s "submitted")
      ∧ row.lookup "progress" = some (JVal.i 0)
      ∧ ∀ k v, jobParams0.lookup k = some v → row.lookup k = some v :=
  create_fetch_roundtrip_c8 [] "job-1" "t0" jobParams0 rfl (by decide) (by decide) (by decide)

/-! ## Answer normalisation

`normalize_answer` and `format_answer_for_ui` (AttractionAgent.py lines
301-317). Each `re.sub` is embedded as a position-by-position scanner with
the pattern's leftmost, non-overlapping match semantics; the repo's texts use
only ASCII whitespace and ASCII digits, which is what `pyIsSpace` and
`Char.isDigit` model of Python's `\s` and `\d`. -/

/-- Python `str.replace` for a literal two-character pattern, left-to-right
and non-overlapping (used for the `\n` and `\t` escape decodes). -/
def replace2 (p1 p2 r : Char) : List Char → List Char
  | [] => []
  | [c] => [c]
  | c1 :: c2 :: rest =>
    if c1 = p1 ∧ c2 = p2 then r :: replace2 p1 p2 r rest
    else c1 :: replace2 p1 p2 r (c2 :: rest)

/-- `re.sub(r"\n{3,}", "\n\n", text)` as a scanner with explicit fuel (the
fuel only bounds the recursion depth; one character at least is consumed per
step, so `cs.length` is always enough): every run of three or more newlines
becomes exactly two; shorter runs are kept. -/
def collapseNewlinesF : Nat → List Char → List Char
  | 0, _ => []
  | _ + 1, [] => []
  | fuel + 1, c :: cs' =>
    if c = '\n' then
      (if 2 ≤ (cs'.takeWhile (· = '\n')).length then ['\n', '\n']
       else '\n' :: cs'.takeWhile (· = '\n'))
        ++ collapseNewlinesF fuel (cs'.dropWhile (· = '\n'))
    else c :: collapseNewlinesF fuel cs'

/-- `re.sub(r"\n{3,}", "\n\n", text)`. -/
def collapseNewlines (cs : List Char) : List Char :=
  collapseNewlinesF cs.length cs

/-- Try `\s*LABEL[:：]\s*` at the current position; on success return the
remainder after the matched region. -/
def matchLabel (label : List Char) (cs : List Char) : Option (List Char) :=
  if label.isPrefixOf (cs.dropWhile pyIsSpace) then
    match (cs.dropWhile pyIsSpace).drop label.length with
    | c :: rest =>
      if c = ':' ∨ c = '：' then some (rest.dropWhile pyIsSpace)
      else none
    | [] => none
  else none

/-- `re.sub(r"\s*LABEL[:：]\s*", "\n\nLABEL：\n", text)` for one section label. -/
def subLabelF (label : List Char) : Nat → List Char → List Char
  | 0, _ => []
  | fuel + 1, cs =>
    match matchLabel label cs with
    | some rest =>
      '\n' :: '\n' :: (label ++ '：' :: '\n' :: subLabelF label fuel rest)
    | none =>
      match cs with
      | [] => []
      | c :: cs' => c :: subLabelF label fuel cs'

def subLabel (label : List Char) (cs : List Char) : List Char :=
  subLabelF label cs.length cs

/-- The punctuation class `[。！？!?]` of `format_answer_for_ui`. -/
def punctClass : List Char := ['。', '！', '？', '!', '?']

/-- Try `([。！？!?])\s*(如需|需要我)` at the current position, returning the
punctuation character, the keyword matched (`如需` tried first) and the
remainder. -/
def matchPunct (cs : List Char) : Option (Char × List Char × List Char) :=
  match cs with
  | [] => none
  | c :: rest =>
    if c ∈ punctClass then
      if "如需".toList.isPrefixOf (rest.dropWhile pyIsSpace) then
        some (c, "如需".toList, (rest.dropWhile pyIsSpace).drop 2)
      else if "需要我".toList.isPrefixOf (rest.dropWhile pyIsSpace) then
        some (c, "需要我".toList, (rest.dropWhile pyIsSpace).drop 3)
      else none
    else none

/-- `re.sub(r"([。！？!?])\s*(如需|需要我)", r"\1\n\n\2", text)`. -/
def subPunctF : Nat → List Char → List Char
  | 0, _ => []
  | fuel + 1, cs =>
    match matchPunct cs with
    | some (c, kw, rest) => c :: '\n' :: '\n' :: (kw ++ subPunctF fuel rest)
    | none =>
      match cs with
      | [] => []
      | c :: cs' => c :: subPunctF fuel cs'

def subPunct (cs : List Char) : List Char :=
  subPunctF cs.length cs

/-- The list delimiters `[)\.、]` of the numbered-item pattern. -/
def numDelims : List Char := [')', '.', '、']

/-- Try `(\d+[)\.、])\s*` at the current position, returning the digit run,
the delimiter, the original character immediately preceding the remainder
(for the next position's `(?<!\n)` lookbehind) and the remainder. -/
def matchNumbered (cs : List Char) : Option (List Char × Char × Char × List Char) :=
  if (cs.takeWhile Char.isDigit).isEmpty then none
  else
    match cs.drop (cs.takeWhile Char.isDigit).length with
    | d :: rest0 =>
      if d ∈ numDelims then
        some (cs.takeWhile Char.isDigit, d, ((rest0.takeWhile pyIsSpace).getLast?).getD d,
          rest0.dropWhile pyIsSpace)
      else none
    | [] => none

/-- `re.sub(r"(?<!\n)(\d+[)\.、])\s*", r"\n\1 ", text)`: `prev` is the
original character before the current position (`none` at the start); the
negative lookbehind blocks a match right after a newline. -/
def subNumberedF : Nat → Option Char → List Char → List Char
  | 0, _, _ => []
  | _ + 1, _, [] => []
  | fuel + 1, prev, c :: cs' =>
    if prev ≠ some '\n' then
      match matchNumbered (c :: cs') with
      | some (ds, d, p, rest) =>
        '\n' :: (ds ++ d :: ' ' :: subNumberedF fuel (some p) rest)
      | none => c :: subNumberedF fuel (some c) cs'
    else c :: subNumberedF fuel (some c) cs'

def subNumbered (prev : Option Char) (cs : List Char) : List Char :=
  subNumberedF cs.length prev cs

/-- `format_answer_for_ui` (lines 301-311): text that already contains a
newline is only stripped; single-line text goes through the five
substitutions and a final newline collapse before stripping. -/
def format_answer_for_ui (text : String) : String :=
  if '\n' ∈ text.toList then pyStrip text
  else
    ⟨pyStripL (collapseNewlines (subNumbered none (subPunct
      (subLabel "推荐景点".toList (subLabel "注意事项".toList
        (subLabel "出行建议".toList text.toList))))))⟩

/-- `normalize_answer` (lines 314-317): decode the `\n` then `\t` escapes,
collapse runs of three or more newlines to two, then format. -/
def normalize_answer (text : String) : String :=
  format_answer_for_ui
    ⟨collapseNewlines (replace2 '\\' 't' '\t' (replace2 '\\' 'n' '\n' text.toList))⟩

/-- Counterexample to C9 as stated: the Finish answer text `a\n出行建议：b`
decodes to a two-line text in which the recognized section label 出行建议
occurs, yet the returned answer contains no blank line at all before it —
`format_answer_for_ui` returns any text that already contains a newline
merely stripped, skipping the label insertion entirely. -/
theorem normalize_answer_c9_counterexample :
    normalize_answer "a\\n出行建议：b" = "a\n出行建议：b"
    ∧ ¬ (['\n', '\n'] <:+: (normalize_answer "a\\n出行建议：b").toList) :=
  ⟨by decide, by decide⟩

/-- **C9** (amended): `normalize_answer` decodes the `\n` and `\t` escape
sequences and collapses runs of three or more newlines to exactly two, but
the blank-line insertion before recognized section labels applies only when
the decoded text contains no newline at all: whenever the decoded, collapsed
text contains a newline, it is returned merely stripped (first conjunct);
on single-line text the insertion does take place (second conjunct). -/
theorem normalize_answer_c9 (text : String)
    (h : '\n' ∈ collapseNewlines (replace2 '\\' 't' '\t'
        (replace2 '\\' 'n' '\n' text.toList))) :
    normalize_answer text
      = pyStrip ⟨collapseNewlines (replace2 '\\' 't' '\t'
          (replace2 '\\' 'n' '\n' text.toList))⟩
    ∧ normalize_answer "天气晴。出行建议：带伞" = "天气晴。\n\n出行建议：\n带伞" := by
  constructor
  · unfold normalize_answer format_answer_for_ui
    have h' : '\n' ∈ (String.mk (collapseNewlines (replace2 '\\' 't' '\t'
        (replace2 '\\' 'n' '\n' text.toList)))).toList := h
    rw [if_pos h']
  · decide

/-- Witness for C9's amended theorem at a concrete two-line answer. -/
theorem normalize_answer_c9_witness :
    ('\n' ∈ collapseNewlines (replace2 '\\' 't' '\t' (replace2 '\\' 'n' '\n'
        ("天气：晴\\n出行建议：带伞").toList)))
    ∧ normalize_answer "天气：晴\\n出行建议：带伞"
        = pyStrip ⟨collapseNewlines (replace2 '\\' 't' '\t' (replace2 '\\' 'n' '\n'
            ("天气：晴\\n出行建议：带伞").toList))⟩ :=
  ⟨by decide, (normalize_answer_c9 _ (by decide)).1⟩

/-! ## Text utilities (`AgentFramework/text_utils.py`)

Used by the Finish path of the control loop. As in the normalisation section,
each regex is embedded with its operational match semantics; Python's `\s`,
`\d` and `\w` are modelled for the character classes the repo's texts use
(ASCII whitespace, ASCII digits, and ASCII word characters plus CJK
ideographs). -/

/-- First index at which `needle` occurs as a contiguous substring of `hay`
(Python `str.find` / `re.search` of a literal). -/
def findSubstr (needle : List Char) : List Char → Option Nat
  | [] => if needle.isEmpty then some 0 else none
  | c :: t =>
    if needle.isPrefixOf (c :: t) then some 0
    else (findSubstr needle t).map (· + 1)

/-- Whether `needle` occurs as a substring (Python `needle in hay`). -/
def containsSub (needle hay : List Char) : Bool :=
  (findSubstr needle hay).isSome

/-- Python `\w` restricted to the character classes this program's texts use:
ASCII alphanumerics, underscore, and CJK unified ideographs (which Python's
Unicode `\w` also counts as word characters). -/
def pyIsWord (c : Char) : Bool :=
  c.isAlphanum || c = '_' || (0x4E00 ≤ c.toNat && c.toNat ≤ 0x9FFF)

/-- `[A-Za-z_]`, the allowed first character of the assignment pattern. -/
def isAsciiIdentStart (c : Char) : Bool :=
  ('A' ≤ c && c ≤ 'Z') || ('a' ≤ c && c ≤ 'z') || c = '_'

/-- Splitting on the newline character; the repo's texts use `\n` only, and
every use either filters blank lines or acts on stripped text, so Python
`splitlines`'s other line terminators and trailing-newline rule are not
modelled. -/
def splitOnNl : List Char → List (List Char)
  | [] => [[]]
  | c :: cs =>
    if c = '\n' then [] :: splitOnNl cs
    else
      match splitOnNl cs with
      | l :: ls => (c :: l) :: ls
      | [] => [[c]]

/-- `^KW\s+\w+` anchored at the start of a stripped line. -/
def kwThenSpaceWord (kw : List Char) (cs : List Char) : Bool :=
  kw.isPrefixOf cs
    && !((cs.drop kw.length).takeWhile pyIsSpace).isEmpty
    && (match (cs.drop kw.length).dropWhile pyIsSpace with
        | c :: _ => pyIsWord c
        | [] => false)

/-- `^KW\b` anchored at the start of a stripped line. -/
def kwThenBoundary (kw : List Char) (cs : List Char) : Bool :=
  kw.isPrefixOf cs
    && (match cs.drop kw.length with
        | c :: _ => !pyIsWord c
        | [] => true)

/-- `re.search(r"\b[A-Za-z_]\w*\s*=\s*[^=]", line)`: scanning with the char
preceding the current position for the word boundary; `\s*=\s*[^=]` succeeds
exactly when the identifier run is followed (after whitespace) by `=` and one
more character that is not `=`. -/
def assignSearchF : Nat → Option Char → List Char → Bool
  | 0, _, _ => false
  | _ + 1, _, [] => false
  | fuel + 1, prev, c :: cs =>
    if (match prev with | some p => !pyIsWord p | none => true)
        && isAsciiIdentStart c
        && (match ((c :: cs).drop ((c :: cs).takeWhile pyIsWord).length).dropWhile pyIsSpace with
            | '=' :: d :: _ => d ≠ '='
            | _ => false) then true
    else assignSearchF fuel (some c) cs

/-- `is_code_line` (text_utils.py lines 4-24) on the stripped line. -/
def is_code_line_core (stripped : List Char) : Bool :=
  if stripped.isEmpty then false
  else if ["-", "*", "1.", "2.", "3."].any (fun p => p.toList.isPrefixOf stripped) then
    false
  else if kwThenSpaceWord "import".toList stripped
      || kwThenSpaceWord "from".toList stripped then true
  else if kwThenSpaceWord "def".toList stripped
      || kwThenSpaceWord "class".toList stripped then true
  else if ["if", "elif", "else", "for", "while", "try", "except", "with"].any
      (fun k => kwThenBoundary k.toList stripped) then true
  else if ["const", "let", "var", "function", "export", "import"].any
      (fun k => kwThenBoundary k.toList stripped) then true
  else if ["@", "#include", "<"].any (fun p => p.toList.isPrefixOf stripped) then true
  else if (match stripped.getLast? with
      | some c => c = '{' || c = '}' || c = ';'
      | none => false) then true
  else assignSearchF stripped.length none stripped

/-- `is_code_line`. -/
def is_code_line (line : List Char) : Bool :=
  is_code_line_core (pyStripL line)

/-- `looks_like_code` (lines 27-36). `int(len(lines) * 0.4)` is modelled as
`(2 * n) / 5` in naturals: the float product only reaches an integer at
multiples of 5, where truncation agrees with the exact value. -/
def looks_like_code (text : String) : Bool :=
  if text.toList.isEmpty then false
  else if containsSub "```".toList text.toList then true
  else
    if ((splitOnNl text.toList).filter (fun l => !(pyStripL l).isEmpty)).length < 2 then
      false
    else
      max 2 ((2 * ((splitOnNl text.toList).filter
          (fun l => !(pyStripL l).isEmpty)).length) / 5)
        ≤ (((splitOnNl text.toList).filter (fun l => !(pyStripL l).isEmpty)).filter
            is_code_line).length

/-- `re.search(r"\bKW\b", text)` for a list of keywords (the alternation), as
a scanner carrying the previous character for the left word boundary. -/
def wordSearchF (kws : List (List Char)) : Nat → Option Char → List Char → Bool
  | 0, _, _ => false
  | _ + 1, _, [] => false
  | fuel + 1, prev, c :: cs =>
    if (match prev with | some p => !pyIsWord p | none => true)
        && kws.any (fun kw => kw.isPrefixOf (c :: cs)
            && (match (c :: cs).drop kw.length with
                | d :: _ => !pyIsWord d
                | [] => true)) then true
    else wordSearchF kws fuel (some c) cs

/-- `detect_code_language` (lines 39-49); `text.lower()` is modelled with
`Char.toLower`, which lowercases the ASCII letters these patterns inspect. -/
def detect_code_language (text : String) : String :=
  if wordSearchF ["import".toList, "from".toList, "def".toList, "class".toList]
        (text.toList.map Char.toLower).length none (text.toList.map Char.toLower)
      || containsSub "streamlit".toList (text.toList.map Char.toLower)
      || containsSub "st.".toList (text.toList.map Char.toLower) then "python"
  else if wordSearchF ["const".toList, "let".toList, "var".toList,
        "function".toList, "export".toList, "import".toList]
        (text.toList.map Char.toLower).length none (text.toList.map Char.toLower)
      || containsSub "=>".toList (text.toList.map Char.toLower) then "javascript"
  else if (splitOnNl text.toList).any
      (fun l => (l.dropWhile pyIsSpace).head? = some '<') then "html"
  else if (match (pyStripL text.toList).head? with
      | some c => c = '{' || c = '['
      | none => false) then "json"
  else ""

/-- `wrap_code_block` (lines 52-63) with the default empty indent; the fence
`("```" ++ lang).rstrip()` never carries trailing whitespace, so the rstrip
is a no-op. -/
def wrap_code_block (text : String) : String :=
  if text.toList.isEmpty then text
  else if containsSub "```".toList text.toList then text
  else
    ⟨List.intercalate ['\n']
      (("```".toList ++ (detect_code_language text).toList)
        :: (splitOnNl text.toList ++ ["```".toList]))⟩

/-- `wrap_code_block_if_needed` (lines 66-69). -/
def wrap_code_block_if_needed (text : String) : String :=
  if looks_like_code text then wrap_code_block text else text

/-! ## Agent control loop

`_run_agent` and `run_agent` (AttractionAgent.py lines 286-600), embedded in
the non-streaming configuration (no `emitter` side channel, so transcript
events are not modelled and `is_streamed()` is false) with a successfully
built model client. The model and `run_skill` are oracles: `llm` maps the
joined prompt history to the model's reply, `dispatch` maps the final keyword
arguments to the observation string `run_skill(**kwargs)` returns. -/

/-- `truncate_thought_action` (lines 286-294): the regex
`(Thought:.*?Action:.*?)(?=\n\s*(?:Thought:|Action:|Observation:)|\Z)` with
DOTALL keeps only the first Thought/Action pair. The match starts at the
first `Thought:`, the lazy middle ends at the first following `Action:`, and
the lazy tail ends at the first position where the lookahead (or the end of
the string) matches; with no match, the raw output is stripped. -/
def truncLookahead : List Char → Bool
  | '\n' :: rest =>
    "Thought:".toList.isPrefixOf (rest.dropWhile pyIsSpace)
      || "Action:".toList.isPrefixOf (rest.dropWhile pyIsSpace)
      || "Observation:".toList.isPrefixOf (rest.dropWhile pyIsSpace)
  | _ => false

/-- The number of characters the lazy tail keeps before the lookahead (or
the end) first matches. -/
def truncScan : List Char → Nat
  | [] => 0
  | c :: rest => if truncLookahead (c :: rest) then 0 else truncScan rest + 1

/-- `truncate_thought_action`. -/
def truncate_thought_action (llm_output : String) : String :=
  match findSubstr "Thought:".toList llm_output.toList with
  | none => pyStrip llm_output
  | some i =>
    match findSubstr "Action:".toList (llm_output.toList.drop (i + 8)) with
    | none => pyStrip llm_output
    | some j =>
      ⟨pyStripL ((llm_output.toList.take (i + 8 + j + 7
          + truncScan (llm_output.toList.drop (i + 8 + j + 7)))).drop i)⟩

/-- `re.search(r"Action: (.*)", llm_output, re.DOTALL)` followed by
`.group(1).strip()` (lines 468-473): everything after the first occurrence of
the marker, stripped. -/
def actionAfterMarker (t : String) : Option String :=
  (findSubstr "Action: ".toList t.toList).map
    (fun i => ⟨pyStripL (t.toList.drop (i + 8))⟩)

/-- `re.search(r'finish\(answer="([\s\S]*?)"\)', action_str)` (line 477): the
capture runs from after the first `finish(answer="` to the first following
`")`. -/
def finishCapture (action_str : String) : Option String :=
  match findSubstr "finish(answer=\"".toList action_str.toList with
  | none => none
  | some i =>
    match findSubstr "\")".toList (action_str.toList.drop (i + 15)) with
    | none => none
    | some j => some ⟨(action_str.toList.drop (i + 15)).take j⟩

/-- `re.search(r"(\w+)\(", action_str)` (line 489): the maximal word run
immediately followed by an opening parenthesis, at the leftmost such
position. -/
def toolNameMatchF : Nat → List Char → Option String
  | 0, _ => none
  | _ + 1, [] => none
  | fuel + 1, c :: cs =>
    if pyIsWord c then
      match (c :: cs).drop ((c :: cs).takeWhile pyIsWord).length with
      | '(' :: _ => some ⟨(c :: cs).takeWhile pyIsWord⟩
      | _ => toolNameMatchF fuel cs
    else toolNameMatchF fuel cs

/-- `re.search(r"(\w+)\(", action_str)`. -/
def toolNameMatch (cs : List Char) : Option String :=
  toolNameMatchF cs.length cs

/-- `re.search(r"\((.*)\)", action_str, re.DOTALL)` (line 490): the greedy
capture runs from after the first `(` to the last `)`. -/
def argsMatch (cs : List Char) : Option (List Char) :=
  match findSubstr ['('] cs with
  | none => none
  | some i =>
    match findSubstr [')'] (cs.drop (i + 1)).reverse with
    | none => none
    | some k => some ((cs.drop (i + 1)).take ((cs.drop (i + 1)).length - 1 - k))

/-- One regex match attempt sequence of
`re.findall(r'(\w+)="([^"]*)"', args_str)` (line 298), scanning left to
right, non-overlapping. -/
def extractKwargsF : Nat → List Char → List (String × String)
  | 0, _ => []
  | _ + 1, [] => []
  | fuel + 1, c :: cs =>
    if pyIsWord c then
      match ((c :: cs).drop ((c :: cs).takeWhile pyIsWord).length : List Char) with
      | '=' :: '"' :: rest =>
        match rest.drop (rest.takeWhile (· ≠ '"')).length with
        | '"' :: rest' =>
          (⟨(c :: cs).takeWhile pyIsWord⟩, ⟨rest.takeWhile (· ≠ '"')⟩)
            :: extractKwargsF fuel rest'
        | _ => extractKwargsF fuel cs
      | _ => extractKwargsF fuel cs
    else extractKwargsF fuel cs

/-- `extract_kwargs` (lines 297-298): `dict(re.findall(...))`, where the
Python dict keeps the last value of a duplicated key. -/
def extract_kwargs (args_str : String) : List (String × String) :=
  (extractKwargsF args_str.toList.length args_str.toList).foldl
    (fun m kv => dictInsert m kv.1 kv.2) []

/-- Python truthiness of an optional string (`None` and `""` are falsy). -/
def optTruthy : Option String → Bool
  | some s => s ≠ ""
  | none => false

/-- `kwargs.get(k)`. -/
def kwGet (kw : List (String × String)) (k : String) : Option String :=
  kw.lookup k

/-- Truthiness of `kwargs.get(k)`. -/
def kwTruthy (kw : List (String × String)) (k : String) : Bool :=
  optTruthy (kw.lookup k)

/-- The mutable run state of `_run_agent` (lines 437-442). -/
structure LoopState where
  promptHistory : List String
  traceSteps : List String
  lastWeather : Option String
  lastWeatherCity : Option String
  lastLocalTime : Option String
  lastLocalTimeCity : Option String
  deriving DecidableEq, Repr

/-- A run-visible effect of one turn, for stating the ordering invariant:
dispatches of available tools (with the final keyword arguments) and the
successful weather/local-time recordings, in execution order. -/
inductive Event where
  | dispatched (tool : String) (kwargs : List (String × String))
  | weatherRecorded (city : Option String)
  | timeRecorded (city : Option String)
  deriving DecidableEq, Repr

/-- The value a `return` statement of `_run_agent` produces: the source
returns 2-element tuples on the empty-input and client-build paths (lines
427, 434) and 3-element tuples everywhere else. -/
inductive AgentReturn where
  | pair (answer : String) (trace : Option String)
  | triple (answer : String) (trace : Option String) (streamed : Bool)
  deriving DecidableEq, Repr

/-- Result of one loop iteration: a `return` from the function, or fall
through to the next turn. -/
inductive TurnOutcome where
  | ret (r : AgentReturn) (events : List Event)
  | next (s : LoopState) (events : List Event)
  deriving DecidableEq, Repr

def outcomeEvents : TurnOutcome → List Event
  | .ret _ es => es
  | .next _ es => es

def upstreamErrPfx : String := "错误:调用语言模型服务时出错"

def emptyInputMsg : String := "错误:用户输入为空。"

def noActionMsg : String := "错误:模型输出中未找到 Action。"

def invalidFinishMsg : String := "错误:模型finish格式无效。"

def invalidToolMsg : String := "错误:模型工具调用格式无效。"

def weatherGateMsg : String :=
  "错误:必须先调用 get-weather 获取该城市的真实天气，再调用 get-attraction。"

def timeGateMsg : String :=
  "错误:必须先调用 get-local-time 获取该城市的本地时间，再调用 get-attraction。"

def turnLimitMsg : String := "错误:超过最大循环次数，未完成任务。"

def undefinedToolMsg (tool : String) : String :=
  "错误:未定义的工具 '" ++ tool ++ "'"

/-- `"\n".join(trace_steps) if return_trace else None`. -/
def traceOut (returnTrace : Bool) (steps : List String) : Option String :=
  if returnTrace then some (String.intercalate "\n" steps) else none

/-- The city backfill (lines 503-508): an omitted or empty `city` on a
get-attraction call is filled from the last successful weather fetch's city
when that is truthy, else from the last successful local-time fetch's city. -/
def backfillCity (s : LoopState) (toolName : String)
    (kw : List (String × String)) : List (String × String) :=
  if toolName = "run_skill" && kwGet kw "name" = some "get-attraction"
      && !kwTruthy kw "city" then
    if optTruthy s.lastWeatherCity then
      dictInsert kw "city" (s.lastWeatherCity.getD "")
    else if optTruthy s.lastLocalTimeCity then
      dictInsert kw "city" (s.lastLocalTimeCity.getD "")
    else kw
  else kw

/-- The weather prerequisite check of lines 510-512 (true = blocked). -/
def weatherGateFails (s : LoopState) (kw : List (String × String)) : Bool :=
  !optTruthy s.lastWeather || !optTruthy s.lastWeatherCity
    || s.lastWeatherCity ≠ kwGet kw "city"

/-- The local-time prerequisite check of lines 519-521 (true = blocked). -/
def timeGateFails (s : LoopState) (kw : List (String × String)) : Bool :=
  !optTruthy s.lastLocalTime || !optTruthy s.lastLocalTimeCity
    || s.lastLocalTimeCity ≠ kwGet kw "city"

/-- The weather argument backfill (lines 530-537, with `tool_name` already
known to be `run_skill` on this path). -/
def backfillWeatherArg (s : LoopState) (kw : List (String × String)) :
    List (String × String) :=
  if kwGet kw "name" = some "get-attraction" && optTruthy s.lastWeather
      && !kwTruthy kw "weather" then
    dictInsert kw "weather" (s.lastWeather.getD "")
  else kw

/-- The local-time argument backfill (lines 538-544), applied after the
weather one. -/
def backfillLocalTimeArg (s : LoopState) (kw : List (String × String)) :
    List (String × String) :=
  if kwGet kw "name" = some "get-attraction" && optTruthy s.lastLocalTime
      && !kwTruthy kw "local_time" then
    dictInsert kw "local_time" (s.lastLocalTime.getD "")
  else kw

/-- The two sequential argument backfills of lines 530-544. -/
def backfillObsArgs (s : LoopState) (kw : List (String × String)) :
    List (String × String) :=
  backfillLocalTimeArg s (backfillWeatherArg s kw)

/-- Lines 545-561 once an available tool has produced `obs`: the recording of
successful weather/local-time observations keyed by the call's city, and the
history/trace appends. -/
def afterDispatch (s : LoopState) (t : String) (kw : List (String × String))
    (obs : String) : TurnOutcome :=
  .next { s with
      promptHistory := s.promptHistory ++ [t, "Observation: " ++ obs],
      traceSteps := s.traceSteps ++ [t ++ "\nObservation: " ++ obs],
      lastWeather :=
        if kwGet kw "name" = some "get-weather"
            && !("错误".toList.isPrefixOf obs.toList) then some obs
        else s.lastWeather,
      lastWeatherCity :=
        if kwGet kw "name" = some "get-weather"
            && !("错误".toList.isPrefixOf obs.toList) then kwGet kw "city"
        else s.lastWeatherCity,
      lastLocalTime :=
        if kwGet kw "name" = some "get-local-time"
            && !("错误".toList.isPrefixOf obs.toList) then some obs
        else s.lastLocalTime,
      lastLocalTimeCity :=
        if kwGet kw "name" = some "get-local-time"
            && !("错误".toList.isPrefixOf obs.toList) then kwGet kw "city"
        else s.lastLocalTimeCity }
    ([.dispatched "run_skill" kw]
      ++ (if kwGet kw "name" = some "get-weather"
            && !("错误".toList.isPrefixOf obs.toList) then
            [.weatherRecorded (kwGet kw "city")]
          else [])
      ++ (if kwGet kw "name" = some "get-local-time"
            && !("错误".toList.isPrefixOf obs.toList) then
            [.timeRecorded (kwGet kw "city")]
          else []))

/-- A synthetic observation appended without dispatching, continuing the
loop (the malformed-call, gate-failure and undefined-tool paths). -/
def observeOnly (s : LoopState) (t obs : String) : TurnOutcome :=
  .next { s with
      promptHistory := s.promptHistory ++ [t, "Observation: " ++ obs],
      traceSteps := s.traceSteps ++ [t ++ "\nObservation: " ++ obs] } []

/-- The body of one `for` iteration of `_run_agent` (lines 446-561) after the
model call returned `raw`. -/
def runTurn (dispatch : List (String × String) → String) (returnTrace : Bool)
    (s : LoopState) (raw : String) : TurnOutcome :=
  if upstreamErrPfx.toList.isPrefixOf raw.toList then
    .ret (.triple raw (traceOut returnTrace (s.traceSteps ++ [raw])) false) []
  else
    match actionAfterMarker (truncate_thought_action raw) with
    | none =>
      .ret (.triple noActionMsg (traceOut returnTrace
        (s.traceSteps ++ [truncate_thought_action raw])) false) []
    | some astr =>
      if "finish".toList.isPrefixOf (astr.toList.map Char.toLower) then
        match finishCapture astr with
        | none =>
          .ret (.triple invalidFinishMsg (traceOut returnTrace
            (s.traceSteps ++ [truncate_thought_action raw])) false) []
        | some ans =>
          .ret (.triple (wrap_code_block_if_needed (normalize_answer ans))
            (traceOut returnTrace (s.traceSteps ++ [truncate_thought_action raw])) false) []
      else
        match toolNameMatch astr.toList, argsMatch astr.toList with
        | some toolName, some argsStr =>
          if toolName = "run_skill"
              && kwGet (backfillCity s toolName (extract_kwargs ⟨argsStr⟩)) "name"
                  = some "get-attraction"
              && weatherGateFails s (backfillCity s toolName (extract_kwargs ⟨argsStr⟩)) then
            observeOnly s (truncate_thought_action raw) weatherGateMsg
          else if toolName = "run_skill"
              && kwGet (backfillCity s toolName (extract_kwargs ⟨argsStr⟩)) "name"
                  = some "get-attraction"
              && timeGateFails s (backfillCity s toolName (extract_kwargs ⟨argsStr⟩)) then
            observeOnly s (truncate_thought_action raw) timeGateMsg
          else if toolName = "run_skill" then
            afterDispatch s (truncate_thought_action raw)
              (backfillObsArgs s (backfillCity s toolName (extract_kwargs ⟨argsStr⟩)))
              (dispatch (backfillObsArgs s
                (backfillCity s toolName (extract_kwargs ⟨argsStr⟩))))
          else
            observeOnly s (truncate_thought_action raw) (undefinedToolMsg toolName)
        | _, _ =>
          observeOnly s (truncate_thought_action raw) invalidToolMsg

/-- The `for i in range(max_turns)` loop, with the remaining turn budget as
the recursion measure; running out of budget is the turn-limit error. -/
def loopRun (llm : String → String) (dispatch : List (String × String) → String)
    (returnTrace : Bool) : Nat → LoopState → AgentReturn × List Event
  | 0, s => (.triple turnLimitMsg (traceOut returnTrace s.traceSteps) false, [])
  | n + 1, s =>
    match runTurn dispatch returnTrace s (llm (String.intercalate "\n" s.promptHistory)) with
    | .ret r es => (r, es)
    | .next s' es =>
      ((loopRun llm dispatch returnTrace n s').1,
        es ++ (loopRun llm dispatch returnTrace n s').2)

/-- `_run_agent` (lines 416-565): the empty-prompt check `not user_prompt or
not user_prompt.strip()` and then the turn loop from the fresh state. The
empty-input path returns the source's 2-element tuple (line 427), against
the annotated `Tuple[str, Optional[str], bool]` shape of every other return. -/
def run_agent_model (llm : String → String)
    (dispatch : List (String × String) → String) (userPrompt : String)
    (maxTurns : Nat) (returnTrace : Bool) : AgentReturn × List Event :=
  if userPrompt.toList.all pyIsSpace then
    (.pair emptyInputMsg none, [])
  else
    loopRun llm dispatch returnTrace maxTurns
      { promptHistory := ["用户请求: " ++ userPrompt], traceSteps := [],
        lastWeather := none, lastWeatherCity := none,
        lastLocalTime := none, lastLocalTimeCity := none }

/-- `run_agent` (lines 568-582): `answer, trace, _ = _run_agent(...)` unpacks
three values, so the 2-element tuple of the empty-input path raises
`ValueError` instead of returning. -/
def run_agent (llm : String → String)
    (dispatch : List (String × String) → String) (userPrompt : String)
    (maxTurns : Nat) (returnTrace : Bool) : Except String (String × Option String) :=
  match (run_agent_model llm dispatch userPrompt maxTurns returnTrace).1 with
  | .triple a t _ => .ok (a, t)
  | .pair _ _ => .error "ValueError: not enough values to unpack (expected 3, got 2)"

/-- **C4** (code bug): for every prompt that is empty or whitespace-only,
`_run_agent` performs no model call and produces the EmptyInput message — but
as a 2-element tuple (`return message, None`, line 427), in conflict with its
own `-> Tuple[str, Optional[str], bool]` annotation and with `run_agent`'s
three-name unpacking, which therefore raises `ValueError` instead of
returning the message as the answer. -/
theorem empty_input_c4 (llm : String → String)
    (dispatch : List (String × String) → String) (prompt : String)
    (maxTurns : Nat) (returnTrace : Bool)
    (h : prompt.toList.all pyIsSpace = true) :
    run_agent_model llm dispatch prompt maxTurns returnTrace
      = (.pair emptyInputMsg none, [])
    ∧ run_agent llm dispatch prompt maxTurns returnTrace
      = .error "ValueError: not enough values to unpack (expected 3, got 2)" := by
  have e : run_agent_model llm dispatch prompt maxTurns returnTrace
      = (.pair emptyInputMsg none, []) := by
    unfold run_agent_model
    rw [if_pos h]
  refine ⟨e, ?_⟩
  unfold run_agent
  rw [e]

/-- Witness for C4: a whitespace-only prompt makes `run_agent` raise. -/
theorem empty_input_c4_witness :
    (" \n\t ".toList.all pyIsSpace = true)
    ∧ run_agent (fun _ => "") (fun _ => "") " \n\t " 5 false
      = .error "ValueError: not enough values to unpack (expected 3, got 2)" :=
  ⟨by decide, (empty_input_c4 (fun _ => "") (fun _ => "") " \n\t " 5 false (by decide)).2⟩

/-- Counterexample to C3 as stated: with the model replying
`Action: something(` (Action marker present, call syntax malformed: no
closing parenthesis) on every turn and a 2-turn budget, the run does NOT
terminate on turn 1 with the MalformedOutput error: the malformed call only
yields the invalid-format observation, the loop continues, the whole budget
is consumed, and the final answer is the turn-limit error instead. -/
theorem malformed_action_c3_counterexample :
    run_agent_model (fun _ => "Action: something(") (fun _ => "") "你好" 2 false
      = (.triple turnLimitMsg none false, [])
    ∧ turnLimitMsg ≠ noActionMsg :=
  ⟨by decide, by decide⟩

/-- **C3** (amended): the run terminates with the MalformedOutput error
exactly when the truncated model output contains no `Action: ` marker — and
then it returns at that very turn, with the remaining budget unconsumed
(first conjunct, for any remaining budget `n`) — while an output whose
Action has malformed call syntax (the tool-name or argument regex fails)
only appends the invalid-format observation and continues to the next turn
(second conjunct). -/
theorem malformed_action_c3 (llm : String → String)
    (dispatch : List (String × String) → String) (returnTrace : Bool)
    (n : Nat) (s : LoopState)
    (hup : upstreamErrPfx.toList.isPrefixOf
        (llm (String.intercalate "\n" s.promptHistory)).toList = false)
    (hna : actionAfterMarker (truncate_thought_action
        (llm (String.intercalate "\n" s.promptHistory))) = none) :
    loopRun llm dispatch returnTrace (n + 1) s
      = (.triple noActionMsg (traceOut returnTrace (s.traceSteps
          ++ [truncate_thought_action (llm (String.intercalate "\n" s.promptHistory))]))
          false, [])
    ∧ (∀ (s' : LoopState) (raw astr : String),
        upstreamErrPfx.toList.isPrefixOf raw.toList = false →
        actionAfterMarker (truncate_thought_action raw) = some astr →
        "finish".toList.isPrefixOf (astr.toList.map Char.toLower) = false →
        (toolNameMatch astr.toList = none ∨ argsMatch astr.toList = none) →
        runTurn dispatch returnTrace s' raw
          = observeOnly s' (truncate_thought_action raw) invalidToolMsg) := by
  constructor
  · have ht : runTurn dispatch returnTrace s (llm (String.intercalate "\n" s.promptHistory))
        = .ret (.triple noActionMsg (traceOut returnTrace (s.traceSteps
            ++ [truncate_thought_action (llm (String.intercalate "\n" s.promptHistory))]))
            false) [] := by
      unfold runTurn
      rw [if_neg (fun hcon => Bool.false_ne_true (hup ▸ hcon))]
      rw [hna]
    unfold loopRun
    rw [ht]
  · intro s' raw astr hup' hact hfin hmal
    unfold runTurn
    rw [if_neg (fun hcon => Bool.false_ne_true (hup' ▸ hcon))]
    simp only [hact]
    rw [if_neg (fun hcon => Bool.false_ne_true (hfin ▸ hcon))]
    rcases hmal with h1 | h1
    · rcases ha : argsMatch astr.toList with _ | as <;> simp only [h1, ha]
    · rcases ht2 : toolNameMatch astr.toList with _ | tn <;> simp only [h1, ht2]

/-- Witness for C3's amended theorem: a reply with no Action marker
terminates immediately with two turns still unspent. -/
theorem malformed_action_c3_witness :
    loopRun (fun _ => "hello") (fun _ => "") false 3
        { promptHistory := ["用户请求: hi"], traceSteps := [], lastWeather := none,
          lastWeatherCity := none, lastLocalTime := none, lastLocalTimeCity := none }
      = (.triple noActionMsg none false, []) :=
  (malformed_action_c3 (fun _ => "hello") (fun _ => "") false 2 _
    (by decide) (by decide)).1

/-! ### Lookup stability of the keyword backfills -/

theorem backfillWeatherArg_lookup (s : LoopState) (kw : List (String × String))
    (k : String) (h : k ≠ "weather") :
    kwGet (backfillWeatherArg s kw) k = kwGet kw k := by
  unfold backfillWeatherArg
  split
  · exact dictInsert_lookup_ne _ _ _ _ h
  · rfl

theorem backfillLocalTimeArg_lookup (s : LoopState) (kw : List (String × String))
    (k : String) (h : k ≠ "local_time") :
    kwGet (backfillLocalTimeArg s kw) k = kwGet kw k := by
  unfold backfillLocalTimeArg
  split
  · exact dictInsert_lookup_ne _ _ _ _ h
  · rfl

/-- The weather/local-time argument backfills never touch other keys. -/
theorem backfillObsArgs_lookup (s : LoopState) (kw : List (String × String))
    (k : String) (h1 : k ≠ "weather") (h2 : k ≠ "local_time") :
    kwGet (backfillObsArgs s kw) k = kwGet kw k := by
  unfold backfillObsArgs
  rw [backfillLocalTimeArg_lookup _ _ _ h2, backfillWeatherArg_lookup _ _ _ h1]

theorem backfillCity_lookup_ne (s : LoopState) (tn : String)
    (kw : List (String × String)) (k : String) (h : k ≠ "city") :
    kwGet (backfillCity s tn kw) k = kwGet kw k := by
  unfold backfillCity
  split
  · split
    · exact dictInsert_lookup_ne _ _ _ _ h
    · split
      · exact dictInsert_lookup_ne _ _ _ _ h
      · rfl
  · rfl

/-- **C5**: in a state whose last successful weather fetch was recorded for a
(truthy) city `c`, a get-attraction call that omits the city argument is
dispatched — if it is dispatched at all — with `city = c` (first conjunct);
and in general the omitted city is backfilled from the last successful
weather fetch's city when that is truthy, and only otherwise from the last
successful local-time fetch's city, in that preference order (second
conjunct). -/
theorem city_backfill_c5 (dispatch : List (String × String) → String)
    (returnTrace : Bool) (s : LoopState) (raw astr : String) (as : List Char)
    (c : String)
    (hup : upstreamErrPfx.toList.isPrefixOf raw.toList = false)
    (hact : actionAfterMarker (truncate_thought_action raw) = some astr)
    (hfin : "finish".toList.isPrefixOf (astr.toList.map Char.toLower) = false)
    (htool : toolNameMatch astr.toList = some "run_skill")
    (hargs : argsMatch astr.toList = some as)
    (hname : kwGet (extract_kwargs ⟨as⟩) "name" = some "get-attraction")
    (hcity : kwTruthy (extract_kwargs ⟨as⟩) "city" = false)
    (hw : s.lastWeatherCity = some c) (hc : c ≠ "") :
    (∀ tool kw', Event.dispatched tool kw'
        ∈ outcomeEvents (runTurn dispatch returnTrace s raw) →
      kwGet kw' "city" = some c)
    ∧ (∀ (s2 : LoopState) (kw0 : List (String × String)),
        kwGet kw0 "name" = some "get-attraction" → kwTruthy kw0 "city" = false →
        (optTruthy s2.lastWeatherCity = true →
          backfillCity s2 "run_skill" kw0
            = dictInsert kw0 "city" (s2.lastWeatherCity.getD ""))
        ∧ (optTruthy s2.lastWeatherCity = false →
          optTruthy s2.lastLocalTimeCity = true →
          backfillCity s2 "run_skill" kw0
            = dictInsert kw0 "city" (s2.lastLocalTimeCity.getD ""))) := by
  have hbf : backfillCity s "run_skill" (extract_kwargs ⟨as⟩)
      = dictInsert (extract_kwargs ⟨as⟩) "city" c := by
    unfold backfillCity
    rw [if_pos (by simp [hname, hcity])]
    rw [if_pos (by rw [hw]; simpa [optTruthy] using hc)]
    rw [hw]
    rfl
  have hlook : kwGet (backfillCity s "run_skill" (extract_kwargs ⟨as⟩)) "city"
      = some c := by
    rw [hbf]
    exact dictInsert_lookup_self _ _ _
  have hname1 : kwGet (backfillCity s "run_skill" (extract_kwargs ⟨as⟩)) "name"
      = some "get-attraction" := by
    rw [backfillCity_lookup_ne _ _ _ _ (by decide)]
    exact hname
  constructor
  · intro tool kw' hmem
    unfold runTurn at hmem
    rw [if_neg (fun hcon => Bool.false_ne_true (hup ▸ hcon))] at hmem
    simp only [hact] at hmem
    rw [if_neg (fun hcon => Bool.false_ne_true (hfin ▸ hcon))] at hmem
    simp only [htool, hargs, hname1, decide_True, Bool.true_and, if_true] at hmem
    by_cases hg1 : weatherGateFails s (backfillCity s "run_skill" (extract_kwargs ⟨as⟩)) = true
    · rw [if_pos hg1] at hmem
      simp [observeOnly, outcomeEvents] at hmem
    · rw [if_neg hg1] at hmem
      by_cases hg2 : timeGateFails s (backfillCity s "run_skill" (extract_kwargs ⟨as⟩)) = true
      · rw [if_pos hg2] at hmem
        simp [observeOnly, outcomeEvents] at hmem
      · rw [if_neg hg2] at hmem
        have hname3 : kwGet (backfillObsArgs s
            (backfillCity s "run_skill" (extract_kwargs ⟨as⟩))) "name"
            = some "get-attraction" := by
          rw [backfillObsArgs_lookup _ _ _ (by decide) (by decide)]
          exact hname1
        unfold afterDispatch at hmem
        rw [hname3] at hmem
        simp only [outcomeEvents] at hmem
        simp at hmem
        obtain ⟨htool', hkw'⟩ := hmem
        rw [hkw']
        rw [backfillObsArgs_lookup _ _ _ (by decide) (by decide)]
        exact hlook
  · intro s2 kw0 hname0 hcity0
    constructor
    · intro hwt
      unfold backfillCity
      rw [if_pos (by simp [hname0, hcity0])]
      rw [if_pos hwt]
    · intro hwf hlt
      unfold backfillCity
      rw [if_pos (by simp [hname0, hcity0])]
      rw [if_neg (fun hcon => Bool.false_ne_true (hwf ▸ hcon)), if_pos hlt]

/-- The concrete run state of C5's witness: both prerequisites recorded for
Beijing. -/
def c5State : LoopState :=
  { promptHistory := ["用户请求: 查询"], traceSteps := [],
    lastWeather := some "晴", lastWeatherCity := some "Beijing",
    lastLocalTime := some "10:00", lastLocalTimeCity := some "Beijing" }

/-- Witness for C5: the get-attraction call dispatched from `c5State` on an
action that omits the city carries `city = "Beijing"`. -/
theorem city_backfill_c5_witness :
    kwGet [("name", "get-attraction"), ("city", "Beijing"),
      ("weather", "晴"), ("local_time", "10:00")] "city" = some "Beijing" :=
  (city_backfill_c5 (fun _ => "景点A") false c5State
    "Thought: t\nAction: run_skill(name=\"get-attraction\")"
    "run_skill(name=\"get-attraction\")" "name=\"get-attraction\"".toList "Beijing"
    (by decide) (by decide) (by decide) (by decide) (by decide) (by decide)
    (by decide) (by decide) (by decide)).1 "run_skill"
    [("name", "get-attraction"), ("city", "Beijing"),
      ("weather", "晴"), ("local_time", "10:00")]
    (by decide)

/-! ### Claim C2: the attraction-dispatch ordering invariant -/

/-- The ordering invariant over a run's event log: every dispatched
get-attraction call carries a city for which a successful weather fetch and a
successful local-time fetch were recorded strictly earlier in the log. -/
def GoodLog (E : List Event) : Prop :=
  ∀ pre tool kw post, E = pre ++ Event.dispatched tool kw :: post →
    tool = "run_skill" → kwGet kw "name" = some "get-attraction" →
    ∃ c, kwGet kw "city" = some c
      ∧ Event.weatherRecorded (some c) ∈ pre
      ∧ Event.timeRecorded (some c) ∈ pre

/-- Linkage between the prerequisites recorded in the loop state and the log:
a recorded city always has its recording event in the log so far. -/
def RecInv (E : List Event) (s : LoopState) : Prop :=
  (∀ c, s.lastWeatherCity = some c → Event.weatherRecorded (some c) ∈ E)
  ∧ (∀ c, s.lastLocalTimeCity = some c → Event.timeRecorded (some c) ∈ E)

theorem goodLog_nil : GoodLog [] := by
  intro pre tool kw post h
  cases pre <;> simp at h

theorem goodLog_append {E es : List Event} (hE : GoodLog E)
    (hes : ∀ pre tool kw post, es = pre ++ Event.dispatched tool kw :: post →
      tool = "run_skill" → kwGet kw "name" = some "get-attraction" →
      ∃ c, kwGet kw "city" = some c
        ∧ Event.weatherRecorded (some c) ∈ E ++ pre
        ∧ Event.timeRecorded (some c) ∈ E ++ pre) :
    GoodLog (E ++ es) := by
  intro pre tool kw post heq htool hname
  rcases List.append_eq_append_iff.mp heq with ⟨a', hpre, hes'⟩ | ⟨c', hE', hd⟩
  · obtain ⟨c, hc, hw, ht⟩ := hes a' tool kw post hes' htool hname
    exact ⟨c, hc, hpre.symm ▸ hw, hpre.symm ▸ ht⟩
  · cases c' with
    | nil =>
      simp only [List.append_nil] at hE'
      simp only [List.nil_append] at hd
      obtain ⟨c, hc, hw, ht⟩ := hes [] tool kw post hd.symm htool hname
      rw [List.append_nil] at hw ht
      exact ⟨c, hc, hE' ▸ hw, hE' ▸ ht⟩
    | cons e' c'' =>
      have hd' := hd.symm
      rw [List.cons_append] at hd'
      injection hd' with he hc''
      obtain ⟨c, hc, hw, ht⟩ := hE pre tool kw c'' (by rw [hE', he]) htool hname
      exact ⟨c, hc, hw, ht⟩

/-- Splitting a log whose tail holds no dispatch events around a dispatch
event: the dispatch can only be the head. -/
theorem dispatch_head_split {d : Event} {recEv pre post : List Event}
    {tool : String} {kw : List (String × String)}
    (hrec : ∀ tool' kw', Event.dispatched tool' kw' ∉ recEv)
    (h : d :: recEv = pre ++ Event.dispatched tool kw :: post) :
    pre = [] ∧ d = Event.dispatched tool kw := by
  cases pre with
  | nil =>
    rw [List.nil_append] at h
    injection h with h1 h2
    exact ⟨rfl, h1⟩
  | cons p pre' =>
    exfalso
    rw [List.cons_append] at h
    injection h with h1 h2
    exact hrec tool kw (h2.symm ▸ List.mem_append_right _ (List.mem_cons_self _ _))

theorem weatherGate_pass {s : LoopState} {kw : List (String × String)}
    (h : weatherGateFails s kw = false) :
    ∃ c, s.lastWeatherCity = some c ∧ kwGet kw "city" = some c := by
  unfold weatherGateFails at h
  simp only [Bool.or_eq_false_iff] at h
  obtain ⟨⟨h1, h2⟩, h3⟩ := h
  cases hlc : s.lastWeatherCity with
  | none =>
    rw [hlc] at h2
    simp [optTruthy] at h2
  | some c =>
    refine ⟨c, rfl, ?_⟩
    have h3' : s.lastWeatherCity = kwGet kw "city" := by
      have := of_decide_eq_false h3
      exact not_not.mp this
    rw [hlc] at h3'
    exact h3'.symm

theorem timeGate_pass {s : LoopState} {kw : List (String × String)}
    (h : timeGateFails s kw = false) :
    ∃ c, s.lastLocalTimeCity = some c ∧ kwGet kw "city" = some c := by
  unfold timeGateFails at h
  simp only [Bool.or_eq_false_iff] at h
  obtain ⟨⟨h1, h2⟩, h3⟩ := h
  cases hlc : s.lastLocalTimeCity with
  | none =>
    rw [hlc] at h2
    simp [optTruthy] at h2
  | some c =>
    refine ⟨c, rfl, ?_⟩
    have h3' : s.lastLocalTimeCity = kwGet kw "city" := by
      have := of_decide_eq_false h3
      exact not_not.mp this
    rw [hlc] at h3'
    exact h3'.symm

theorem afterDispatch_spec (s : LoopState) (t : String)
    (kw : List (String × String)) (obs : String) (E : List Event)
    (hE : GoodLog E) (hI : RecInv E s)
    (hctx : kwGet kw "name" = some "get-attraction" →
      ∃ c, kwGet kw "city" = some c ∧ Event.weatherRecorded (some c) ∈ E
        ∧ Event.timeRecorded (some c) ∈ E) :
    GoodLog (E ++ outcomeEvents (afterDispatch s t kw obs))
    ∧ (∀ s' es, afterDispatch s t kw obs = .next s' es → RecInv (E ++ es) s') := by
  constructor
  · apply goodLog_append hE
    intro pre tool' kw2 post heq htool2 hname2
    have hrec : ∀ tool'' kw'', Event.dispatched tool'' kw''
        ∉ ((if kwGet kw "name" = some "get-weather"
              && !("错误".toList.isPrefixOf obs.toList) then
              [Event.weatherRecorded (kwGet kw "city")] else [])
          ++ (if kwGet kw "name" = some "get-local-time"
              && !("错误".toList.isPrefixOf obs.toList) then
              [Event.timeRecorded (kwGet kw "city")] else [])) := by
      intro tool'' kw''
      split <;> split <;> simp
    rw [show outcomeEvents (afterDispatch s t kw obs)
        = Event.dispatched "run_skill" kw ::
          ((if kwGet kw "name" = some "get-weather"
              && !("错误".toList.isPrefixOf obs.toList) then
              [Event.weatherRecorded (kwGet kw "city")] else [])
          ++ (if kwGet kw "name" = some "get-local-time"
              && !("错误".toList.isPrefixOf obs.toList) then
              [Event.timeRecorded (kwGet kw "city")] else [])) from rfl] at heq
    obtain ⟨hpre, hd⟩ := dispatch_head_split hrec heq
    injection hd with hd1 hd2
    subst hpre
    obtain ⟨c, hc, hw, ht⟩ := hctx (hd2.symm ▸ hname2)
    refine ⟨c, hd2 ▸ hc, ?_, ?_⟩
    · simpa using hw
    · simpa using ht
  · intro s' es h
    unfold afterDispatch at h
    injection h with hs hes
    subst hs
    subst hes
    constructor
    · intro c hc
      by_cases hwB : (kwGet kw "name" = some "get-weather"
          && !("错误".toList.isPrefixOf obs.toList)) = true
      · dsimp only at hc
        rw [if_pos hwB] at hc
        rw [← hc]
        refine List.mem_append_right _ ?_
        simp only [Bool.and_eq_true, decide_eq_true_eq, Bool.not_eq_true'] at hwB
        simp [hwB.1]
        exact hwB.2
      · dsimp only at hc
        rw [if_neg hwB] at hc
        exact List.mem_append_left _ (hI.1 c hc)
    · intro c hc
      by_cases htB : (kwGet kw "name" = some "get-local-time"
          && !("错误".toList.isPrefixOf obs.toList)) = true
      · dsimp only at hc
        rw [if_pos htB] at hc
        rw [← hc]
        refine List.mem_append_right _ ?_
        simp only [Bool.and_eq_true, decide_eq_true_eq, Bool.not_eq_true'] at htB
        simp [htB.1]
        exact htB.2
      · dsimp only at hc
        rw [if_neg htB] at hc
        exact List.mem_append_left _ (hI.2 c hc)

theorem observeOnly_spec (s : LoopState) (t obs : String) (E : List Event)
    (hE : GoodLog E) (hI : RecInv E s) :
    GoodLog (E ++ outcomeEvents (observeOnly s t obs))
    ∧ (∀ s' es, observeOnly s t obs = .next s' es → RecInv (E ++ es) s') := by
  constructor
  · simpa [observeOnly, outcomeEvents] using hE
  · intro s' es h
    unfold observeOnly at h
    injection h with hs hes
    subst hs
    subst hes
    rw [List.append_nil]
    exact ⟨fun c hc => hI.1 c hc, fun c hc => hI.2 c hc⟩

/-- One loop iteration preserves the ordering invariant and the recorded-city
linkage, whatever the model output. -/
theorem runTurn_spec (dispatch : List (String × String) → String)
    (returnTrace : Bool) (s : LoopState) (raw : String) (E : List Event)
    (hE : GoodLog E) (hI : RecInv E s) :
    GoodLog (E ++ outcomeEvents (runTurn dispatch returnTrace s raw))
    ∧ (∀ s' es, runTurn dispatch returnTrace s raw = .next s' es →
        RecInv (E ++ es) s') := by
  unfold runTurn
  by_cases hup : upstreamErrPfx.toList.isPrefixOf raw.toList = true
  · rw [if_pos hup]
    exact ⟨by simpa [outcomeEvents] using hE, fun s' es h => TurnOutcome.noConfusion h⟩
  · rw [if_neg hup]
    cases hact : actionAfterMarker (truncate_thought_action raw) with
    | none =>
      simp only [hact]
      exact ⟨by simpa [outcomeEvents] using hE, fun s' es h => TurnOutcome.noConfusion h⟩
    | some astr =>
      simp only [hact]
      by_cases hfin : "finish".toList.isPrefixOf (astr.toList.map Char.toLower) = true
      · rw [if_pos hfin]
        cases hfc : finishCapture astr with
        | none =>
          simp only [hfc]
          exact ⟨by simpa [outcomeEvents] using hE, fun s' es h => TurnOutcome.noConfusion h⟩
        | some ans =>
          simp only [hfc]
          exact ⟨by simpa [outcomeEvents] using hE, fun s' es h => TurnOutcome.noConfusion h⟩
      · rw [if_neg hfin]
        cases htool : toolNameMatch astr.toList with
        | none =>
          cases hargs : argsMatch astr.toList with
          | none =>
            simp only [htool, hargs]
            exact observeOnly_spec s _ _ E hE hI
          | some as =>
            simp only [htool, hargs]
            exact observeOnly_spec s _ _ E hE hI
        | some tn =>
          cases hargs : argsMatch astr.toList with
          | none =>
            simp only [htool, hargs]
            exact observeOnly_spec s _ _ E hE hI
          | some as =>
            simp only [htool, hargs]
            by_cases hc1 : (tn = "run_skill"
                && kwGet (backfillCity s tn (extract_kwargs ⟨as⟩)) "name"
                    = some "get-attraction"
                && weatherGateFails s (backfillCity s tn (extract_kwargs ⟨as⟩))) = true
            · rw [if_pos hc1]
              exact observeOnly_spec s _ _ E hE hI
            · rw [if_neg hc1]
              by_cases hc2 : (tn = "run_skill"
                  && kwGet (backfillCity s tn (extract_kwargs ⟨as⟩)) "name"
                      = some "get-attraction"
                  && timeGateFails s (backfillCity s tn (extract_kwargs ⟨as⟩))) = true
              · rw [if_pos hc2]
                exact observeOnly_spec s _ _ E hE hI
              · rw [if_neg hc2]
                by_cases hc3 : tn = "run_skill"
                · rw [if_pos hc3]
                  subst hc3
                  refine afterDispatch_spec s _ _ _ E hE hI ?_
                  intro hnameD
                  have hnameB : kwGet (backfillCity s "run_skill" (extract_kwargs ⟨as⟩)) "name"
                      = some "get-attraction" := by
                    rw [← backfillObsArgs_lookup s _ "name" (by decide) (by decide)]
                    exact hnameD
                  have hg1 : weatherGateFails s (backfillCity s "run_skill" (extract_kwargs ⟨as⟩))
                      = false := by
                    cases hg : weatherGateFails s (backfillCity s "run_skill" (extract_kwargs ⟨as⟩)) with
                    | false => rfl
                    | true => exact absurd (by simp [hnameB, hg]) hc1
                  have hg2 : timeGateFails s (backfillCity s "run_skill" (extract_kwargs ⟨as⟩))
                      = false := by
                    cases hg : timeGateFails s (backfillCity s "run_skill" (extract_kwargs ⟨as⟩)) with
                    | false => rfl
                    | true => exact absurd (by simp [hnameB, hg]) hc2
                  obtain ⟨c, hwc, hcb⟩ := weatherGate_pass hg1
                  obtain ⟨c', htc, hcb'⟩ := timeGate_pass hg2
                  have hcc : c' = c := by
                    rw [hcb] at hcb'
                    exact (Option.some.inj hcb').symm
                  refine ⟨c, ?_, hI.1 c hwc, hI.2 c (hcc ▸ htc)⟩
                  rw [backfillObsArgs_lookup s _ "city" (by decide) (by decide)]
                  exact hcb
                · rw [if_neg hc3]
                  exact observeOnly_spec s _ _ E hE hI

/-- The whole loop preserves the ordering invariant. -/
theorem loopRun_good (llm : String → String)
    (dispatch : List (String × String) → String) (returnTrace : Bool) :
    ∀ (n : Nat) (s : LoopState) (E : List Event), GoodLog E → RecInv E s →
      GoodLog (E ++ (loopRun llm dispatch returnTrace n s).2) := by
  intro n
  induction n with
  | zero =>
    intro s E hE hI
    simpa [loopRun] using hE
  | succ n ih =>
    intro s E hE hI
    cases ho : runTurn dispatch returnTrace s
        (llm (String.intercalate "\n" s.promptHistory)) with
    | ret r es =>
      have h2 : (loopRun llm dispatch returnTrace (n + 1) s).2 = es := by
        unfold loopRun
        rw [ho]
      rw [h2]
      have hG := (runTurn_spec dispatch returnTrace s
        (llm (String.intercalate "\n" s.promptHistory)) E hE hI).1
      rw [ho] at hG
      simpa [outcomeEvents] using hG
    | next s' es =>
      have h2 : (loopRun llm dispatch returnTrace (n + 1) s).2
          = es ++ (loopRun llm dispatch returnTrace n s').2 := by
        conv_lhs => rw [loopRun]
        rw [ho]
      rw [h2]
      have hspec := runTurn_spec dispatch returnTrace s
        (llm (String.intercalate "\n" s.promptHistory)) E hE hI
      have hG : GoodLog (E ++ es) := by
        have h1 := hspec.1
        rw [ho] at h1
        simpa [outcomeEvents] using h1
      have hR : RecInv (E ++ es) s' := hspec.2 s' es ho
      have h3 := ih s' (E ++ es) hG hR
      simpa [List.append_assoc] using h3

/-- **C2**: (1) in every run, every dispatched get-attraction call carries a
city for which a successful weather recording and a successful local-time
recording occur strictly earlier in the run's event log; (2) if the weather
prerequisite fails on a get-attraction call, the turn dispatches nothing and
appends the synthetic weather-gate error observation, continuing the loop;
(3) if the weather prerequisite holds but the local-time one fails, likewise
with the time-gate error observation. -/
theorem attraction_ordering_c2 (llm : String → String)
    (dispatch : List (String × String) → String) (userPrompt : String)
    (maxTurns : Nat) (returnTrace : Bool) (s : LoopState) (raw astr : String)
    (as : List Char)
    (hup : upstreamErrPfx.toList.isPrefixOf raw.toList = false)
    (hact : actionAfterMarker (truncate_thought_action raw) = some astr)
    (hfin : "finish".toList.isPrefixOf (astr.toList.map Char.toLower) = false)
    (htool : toolNameMatch astr.toList = some "run_skill")
    (hargs : argsMatch astr.toList = some as)
    (hname : kwGet (backfillCity s "run_skill" (extract_kwargs ⟨as⟩)) "name"
      = some "get-attraction") :
    GoodLog (run_agent_model llm dispatch userPrompt maxTurns returnTrace).2
    ∧ (weatherGateFails s (backfillCity s "run_skill" (extract_kwargs ⟨as⟩)) = true →
        runTurn dispatch returnTrace s raw
          = observeOnly s (truncate_thought_action raw) weatherGateMsg)
    ∧ (weatherGateFails s (backfillCity s "run_skill" (extract_kwargs ⟨as⟩)) = false →
        timeGateFails s (backfillCity s "run_skill" (extract_kwargs ⟨as⟩)) = true →
        runTurn dispatch returnTrace s raw
          = observeOnly s (truncate_thought_action raw) timeGateMsg) := by
  refine ⟨?_, ?_, ?_⟩
  · unfold run_agent_model
    split
    · exact goodLog_nil
    · have h := loopRun_good llm dispatch returnTrace maxTurns
        { promptHistory := ["用户请求: " ++ userPrompt], traceSteps := [],
          lastWeather := none, lastWeatherCity := none,
          lastLocalTime := none, lastLocalTimeCity := none }
        [] goodLog_nil
        ⟨fun c hc => by simp at hc, fun c hc => by simp at hc⟩
      simpa using h
  · intro hg1
    unfold runTurn
    rw [if_neg (fun hcon => Bool.false_ne_true (hup ▸ hcon))]
    simp only [hact]
    rw [if_neg (fun hcon => Bool.false_ne_true (hfin ▸ hcon))]
    simp only [htool, hargs]
    rw [if_pos (by simp [hname, hg1])]
  · intro hg1 hg2
    unfold runTurn
    rw [if_neg (fun hcon => Bool.false_ne_true (hup ▸ hcon))]
    simp only [hact]
    rw [if_neg (fun hcon => Bool.false_ne_true (hfin ▸ hcon))]
    simp only [htool, hargs]
    rw [if_neg (by simp [hg1]), if_pos (by simp [hname, hg2])]

/-- The run state of C2's witness: no successful weather fetch has been
recorded yet, so the get-attraction call must be blocked. -/
def c2State : LoopState :=
  { promptHistory := ["用户请求: 北京景点"], traceSteps := [],
    lastWeather := none, lastWeatherCity := none,
    lastLocalTime := none, lastLocalTimeCity := none }

/-- Witness for C2: from a state with no recorded weather fetch, a
get-attraction action yields the synthetic weather-gate error observation
and the loop continues instead of dispatching. -/
theorem attraction_ordering_c2_witness :
    runTurn (fun _ => "景点A") false c2State
        "Thought: t\nAction: run_skill(name=\"get-attraction\", city=\"Beijing\")"
      = observeOnly c2State
          (truncate_thought_action
            "Thought: t\nAction: run_skill(name=\"get-attraction\", city=\"Beijing\")")
          weatherGateMsg :=
  (attraction_ordering_c2 (fun _ => "") (fun _ => "景点A") "北京景点" 1 false c2State
    "Thought: t\nAction: run_skill(name=\"get-attraction\", city=\"Beijing\")"
    "run_skill(name=\"get-attraction\", city=\"Beijing\")"
    "name=\"get-attraction\", city=\"Beijing\"".toList
    (by decide) (by decide) (by decide) (by decide) (by decide)
    (by decide)).2.1 (by decide)

end GaoAgent
